import Mathlib

/-!
Verification of the RustChat server/client networking core.

This file gives a shallow embedding, in Lean 4, of the framing codec, the
per-connection decode state machine, the outbound send path, the message
handlers and the worker event loop of the RustChat repository, and proves
(or refutes) the frozen specification claims about them.

Conventions of the embedding:
* machine bytes are `Nat` values (always < 256 on the wire);
* buffers are `List Nat` holding exactly the live bytes (the Rust code keeps
  a fixed array plus a write cursor; compaction to offset 0 corresponds to
  dropping consumed bytes from the front of the list);
* fallible operations return `Option` or a dedicated result type;
* socket I/O is modelled by a script (`List WriteRes`) of outcomes that the
  OS would return for successive write calls.
-/

namespace RustChat

set_option maxRecDepth 10000


/-! ## Byte-level helpers

`Connection::get_usize` pushes each raw byte into a Rust `String` as a
`char`, trims whitespace on one side, and runs `str::parse::<usize>`.
A byte below 256 is whitespace as a `char` exactly for the code points
U+0009..U+000D, U+0020, U+0085 and U+00A0. -/

/-- Whether the byte, read as a Unicode scalar, is Rust `char::is_whitespace`. -/
def isWsByte (b : Nat) : Bool :=
  (9 ≤ b && b ≤ 13) || b = 32 || b = 133 || b = 160

/-- ASCII decimal digit bytes. -/
def isDigitByte (b : Nat) : Bool := 48 ≤ b && b ≤ 57

/-- Rust `str::trim_start` on a byte string: drop leading whitespace. -/
def trimStartBytes (bs : List Nat) : List Nat := bs.dropWhile isWsByte

/-- Rust `str::trim_end` on a byte string: drop trailing whitespace. -/
def trimEndBytes (bs : List Nat) : List Nat :=
  (bs.reverse.dropWhile isWsByte).reverse

/-- Numeric value of a digit-byte string, most significant first. -/
def digitsVal (ds : List Nat) : Nat := ds.foldl (fun a d => 10 * a + (d - 48)) 0

/-- Strip one optional leading ASCII plus sign (byte 43). -/
def stripPlus (bs : List Nat) : List Nat :=
  match bs with
  | 43 :: rest => rest
  | _ => bs

/-- Rust `str::parse::<usize>`: an optional leading ASCII plus sign followed
by one or more ASCII digits; anything else is an error.  (Overflow cannot
occur on the at most five bytes of a header field.) -/
def parseUsizeBytes (bs : List Nat) : Option Nat :=
  let ds := stripPlus bs
  if ds = [] then none
  else if ds.all isDigitByte then some (digitsVal ds) else none

/-- Fuelled decimal-digit expansion, most significant digit first. -/
def natDigitsAux : Nat → Nat → List Nat
  | 0, _ => []
  | fuel + 1, n => if n < 10 then [48 + n] else natDigitsAux fuel (n / 10) ++ [48 + n % 10]

/-- The ASCII decimal representation of a natural number
(`usize::to_string` / `u32::to_string` in the source). -/
def natDigits (n : Nat) : List Nat := natDigitsAux (n + 1) n

/-! ## Wire constants (`connection.rs`) -/

/-- The magic bytes, ASCII "RustChat". -/
def MAGIC : List Nat := [82, 117, 115, 116, 67, 104, 97, 116]

def HEADER_SIZE : Nat := 16

def MAX_PAYLOAD : Nat := 1024

def MAX_PACKET_SIZE : Nat := HEADER_SIZE + MAX_PAYLOAD

/-! ## The decode state machine

Embeds `Connection::{decode, process_states, decode_header, decode_payload,
get_usize}`.  The backend and frontend copies of this code are byte-for-byte
identical except that the backend `get_usize` calls `trim_start` where the
frontend calls `trim_end`, and that the two dispatch tables (the match on
`message_number` inside `decode_payload`) differ.  Both are therefore
parameterised: `trim` is the trimming function and `handler m p` abstracts
the dispatch arm for message number `m` on payload bytes `p` (UTF-8 check,
serde JSON parse and `process` call; `false` means the arm returned `false`
and the frame is a fatal framing error).

The in-buffer is the list of live bytes `in_buffer[0..in_buffer_pos]`; the
source compaction loop that copies the post-frame suffix to offset 0 is
`List.drop` of the consumed frame. -/

inductive MessageDecodeState
  | waitingForHeader
  | headerSuccessfulRead
  | waitingForPayload
  | payloadSuccessfulRead
deriving DecidableEq

structure ConnState where
  inBuffer : List Nat
  state : MessageDecodeState
  messageNumber : Nat
  payloadSize : Nat
deriving DecidableEq

/-- The decode-relevant part of `Connection::new`. -/
def initConn : ConnState :=
  { inBuffer := [], state := .waitingForHeader, messageNumber := 0, payloadSize := 0 }

/-- `Connection::get_usize(start, end)`: bytes `buffer[start..end]` pushed as
chars, trimmed by `trim`, then `str::parse::<usize>`. -/
def getUsizeWith (trim : List Nat → List Nat) (buffer : List Nat) (s e : Nat) : Option Nat :=
  parseUsizeBytes (trim ((buffer.drop s).take (e - s)))

/-- `Connection::decode_header`.  `none` means the function returned `false`
(fatal framing error); `some` carries the updated connection state. -/
def decodeHeader (trim : List Nat → List Nat) (c : ConnState) : Option ConnState :=
  if c.inBuffer.length < HEADER_SIZE then
    some { c with state := .waitingForHeader }
  else if c.inBuffer.take 8 ≠ MAGIC then
    none
  else
    match getUsizeWith trim c.inBuffer 8 11 with
    | none => none
    | some mn =>
      match getUsizeWith trim c.inBuffer 11 16 with
      | none => none
      | some ps =>
        if ps = 0 ∨ MAX_PAYLOAD < ps then none
        else some { c with messageNumber := mn, payloadSize := ps,
                           state := .headerSuccessfulRead }

/-- `Connection::decode_payload`.  Besides the updated state it returns the
list of frames (message number, payload bytes) handed to the dispatcher by
this call (at most one). -/
def decodePayload (handler : Nat → List Nat → Bool) (c : ConnState) :
    Option (ConnState × List (Nat × List Nat)) :=
  if c.inBuffer.length < c.payloadSize + HEADER_SIZE then
    some ({ c with state := .waitingForPayload }, [])
  else
    if handler c.messageNumber ((c.inBuffer.drop HEADER_SIZE).take c.payloadSize) then
      some ({ c with inBuffer := c.inBuffer.drop (c.payloadSize + HEADER_SIZE),
                     state := .payloadSuccessfulRead },
            [(c.messageNumber, (c.inBuffer.drop HEADER_SIZE).take c.payloadSize)])
    else none

/-- `Connection::process_states`.  The source loop runs `decode_header` or
`decode_payload` by state and returns as soon as the state is in
{WaitingForHeader, WaitingForPayload, PayloadSuccessfulRead}; consequently it
executes at most `decode_header` followed by `decode_payload`, which is the
unrolling below. -/
def processStates (trim : List Nat → List Nat) (handler : Nat → List Nat → Bool)
    (c : ConnState) : Option (ConnState × List (Nat × List Nat)) :=
  match c.state with
  | .waitingForHeader | .payloadSuccessfulRead =>
    match decodeHeader trim c with
    | none => none
    | some c1 =>
      if c1.state = .headerSuccessfulRead then decodePayload handler c1
      else some (c1, [])
  | .headerSuccessfulRead | .waitingForPayload => decodePayload handler c

/-- The loop of `Connection::decode`, fuelled.  Each iteration that continues
has consumed a complete frame (at least 17 bytes), so any fuel above the
buffer length is enough; `none` is a fatal framing error (the source returns
`false` and the connection is closed). -/
def decodeGo (trim : List Nat → List Nat) (handler : Nat → List Nat → Bool) :
    Nat → ConnState → Option (ConnState × List (Nat × List Nat))
  | 0, _ => none
  | fuel + 1, c =>
    match processStates trim handler c with
    | none => none
    | some (c1, tr) =>
      if c1.state = .payloadSuccessfulRead then
        match decodeGo trim handler fuel c1 with
        | none => none
        | some (c2, tr2) => some (c2, tr ++ tr2)
      else some (c1, tr)

/-- `Connection::decode`: run the state machine until it stops producing
complete frames. -/
def Connection.decode (trim : List Nat → List Nat) (handler : Nat → List Nat → Bool)
    (c : ConnState) : Option (ConnState × List (Nat × List Nat)) :=
  decodeGo trim handler (c.inBuffer.length + 1) c

/-- Feeding a chunk: `Connection::read` appends the received bytes after the
write cursor and runs `decode`.  (Reading is chunked by the socket; each
`Ok(n)` arm is one such append-then-decode step.) -/
def feedChunk (trim : List Nat → List Nat) (handler : Nat → List Nat → Bool)
    (c : ConnState) (chunk : List Nat) : Option (ConnState × List (Nat × List Nat)) :=
  Connection.decode trim handler { c with inBuffer := c.inBuffer ++ chunk }

/-- Feed a sequence of chunks one at a time (append, then run `decode`),
accumulating the dispatched frames; a framing error on any chunk aborts
(the connection would be closed). -/
def feedChunks (trim : List Nat → List Nat) (handler : Nat → List Nat → Bool)
    (c : ConnState) : List (List Nat) → Option (ConnState × List (Nat × List Nat))
  | [] => some (c, [])
  | chunk :: rest =>
    match feedChunk trim handler c chunk with
    | none => none
    | some (c1, tr1) =>
      match feedChunks trim handler c1 rest with
      | none => none
      | some (c2, tr2) => some (c2, tr1 ++ tr2)

/-! ## The encoder (`frontend/src/net/connection.rs`, `Connection::encode`) -/

/-- One header field: `for i in 0..w { out[i] = if i < ds.len { ds[i] } else { b' ' } }`:
the first `w` digit bytes, right-padded with ASCII spaces to width `w`. -/
def padField (w : Nat) (ds : List Nat) : List Nat :=
  ds.take w ++ List.replicate (w - ds.length) 32

/-- The header-plus-payload bytes assembled by `Connection::encode`
(`out_buffer[0 .. HEADER_SIZE + message.len()]` after all writes). -/
def encodeBytes (message : List Nat) (number : Nat) : List Nat :=
  MAGIC ++ padField 3 (natDigits number) ++ padField 5 (natDigits message.length) ++ message

inductive EncodeResult
  | ok (bytes : List Nat)
  | tooLong
  | outOfBounds
deriving DecidableEq

/-- `Connection::encode` (frontend).  `tooLong` is the `message.len() > MAX_PAYLOAD`
early `return false`.  The output buffer is declared `Box<[u8; MAX_PAYLOAD]>`
(1024 bytes) although a full packet needs up to `MAX_PACKET_SIZE` (1040)
bytes, so the payload-write loop `out_buffer[16 + i]` panics with an
index-out-of-bounds for any payload longer than `MAX_PAYLOAD - HEADER_SIZE =
1008` bytes: `outOfBounds` marks that panic. -/
def Connection.encode (message : List Nat) (number : Nat) : EncodeResult :=
  if MAX_PAYLOAD < message.length then .tooLong
  else if MAX_PAYLOAD < HEADER_SIZE + message.length then .outOfBounds
  else .ok (encodeBytes message number)

/-- Left-padded variant of a field (what the claims call leading-space padding). -/
def padFieldLeft (w : Nat) (ds : List Nat) : List Nat :=
  List.replicate (w - ds.length) 32 ++ ds

/-! ## The two concrete header-field parsers -/

/-- Backend `Connection::get_usize` (and `MessageFactory::get_usize`):
pushes `buffer[start..end]` as chars, then `trim_start().parse::<usize>()`. -/
def getUsizeBackend (buffer : List Nat) (s e : Nat) : Option Nat :=
  getUsizeWith trimStartBytes buffer s e

/-- Frontend `Connection::get_usize`: same, but `trim_end().parse::<usize>()`. -/
def getUsizeFrontend (buffer : List Nat) (s e : Nat) : Option Nat :=
  getUsizeWith trimEndBytes buffer s e

/-! ## Frames on the wire

A `Frame` is one well-formed packet as the decoder sees it: 16 header bytes
followed by the payload.  `ValidFrame` says the header carries the magic,
parses (under the given trim function) to the frame's message number and to
the payload length, that the length is in range, and that the dispatcher
accepts the payload. -/

structure Frame where
  msgNum : Nat
  payload : List Nat
  header : List Nat

def Frame.bytes (f : Frame) : List Nat := f.header ++ f.payload

def ValidFrame (trim : List Nat → List Nat) (handler : Nat → List Nat → Bool)
    (f : Frame) : Prop :=
  f.header.length = HEADER_SIZE ∧
  f.header.take 8 = MAGIC ∧
  getUsizeWith trim f.header 8 11 = some f.msgNum ∧
  getUsizeWith trim f.header 11 16 = some f.payload.length ∧
  1 ≤ f.payload.length ∧ f.payload.length ≤ MAX_PAYLOAD ∧
  handler f.msgNum f.payload = true

def framesBytes (fs : List Frame) : List Nat := (fs.map Frame.bytes).flatten

def framePairs (fs : List Frame) : List (Nat × List Nat) :=
  fs.map (fun f => (f.msgNum, f.payload))

/-! ### Draining all complete frames from the buffer

`LeftoverOK` describes the bytes that may legally remain after the decoder
stops: nothing, or a strict prefix of a further valid frame.  `Resting`
characterises the connection state the decoder leaves behind on such a
buffer. -/

def LeftoverOK (trim : List Nat → List Nat) (handler : Nat → List Nat → Bool)
    (leftover : List Nat) : Prop :=
  leftover = [] ∨
  ∃ g, ValidFrame trim handler g ∧ (∃ t, leftover ++ t = g.bytes) ∧
    leftover.length < g.bytes.length

def Resting (trim : List Nat → List Nat) (c : ConnState) (leftover : List Nat) : Prop :=
  c.inBuffer = leftover ∧
  ((c.state = .waitingForHeader ∧ leftover.length < HEADER_SIZE) ∨
   (c.state = .waitingForPayload ∧ HEADER_SIZE ≤ leftover.length ∧
    getUsizeWith trim leftover 8 11 = some c.messageNumber ∧
    getUsizeWith trim leftover 11 16 = some c.payloadSize ∧
    1 ≤ c.payloadSize ∧ c.payloadSize ≤ MAX_PAYLOAD ∧
    leftover.length < c.payloadSize + HEADER_SIZE))

/-! ## C1: the round trip decode(encode(p, m)) -/

/-- The 16 header bytes `Connection::encode` assembles. -/
def headerBytes (p : List Nat) (m : Nat) : List Nat :=
  MAGIC ++ padField 3 (natDigits m) ++ padField 5 (natDigits p.length)

/-- The invariant between chunks: the decoder is either at a frame boundary
(waiting for a header) or mid-frame with the pending frame's parsed header
fields stored. -/
def ChunkInv (c : ConnState) (rem : List Frame) : Prop :=
  (c.state = .waitingForHeader ∧ c.inBuffer.length < HEADER_SIZE) ∨
  (c.state = .waitingForPayload ∧ ∃ g rem2, rem = g :: rem2 ∧
    HEADER_SIZE ≤ c.inBuffer.length ∧ c.inBuffer.length < g.bytes.length ∧
    c.messageNumber = g.msgNum ∧ c.payloadSize = g.payload.length)

/-! ## The message catalog and its handlers (`backend/src/net/msg/messages.rs`)

The `Connection` type these handlers mutate carries an authenticated-user
field and an outbound message queue; the handlers reach the event bus
through `connection.server_event_handler`, modelled here as the list of
events the call emits.  `Message::new` pre-serializes a typed message once
so broadcast copies share the bytes; `WireMessage` models that pre-encoded
value by its typed content, and `WireMessage.number` is each type's
`number()`. -/

structure PingMessage where
  nonce : Nat
  reply : Bool
deriving DecidableEq

structure LoginMessage where
  user_name : String
deriving DecidableEq

structure PublishGlobalChatMessage where
  message : String
deriving DecidableEq

structure GlobalChatMessage where
  user_name : String
  message : String
deriving DecidableEq

structure PublishPrivateChatMessage where
  to_user_name : String
  message : String
deriving DecidableEq

structure PrivateChatMessage where
  from_user_name : String
  message : String
deriving DecidableEq

structure PrivateChatMessageEvent where
  from_user_name : String
  to_user_name : String
  message : String
deriving DecidableEq

inductive WireMessage
  | ping (m : PingMessage)
  | globalChat (m : GlobalChatMessage)
  | privateChat (m : PrivateChatMessage)
deriving DecidableEq

/-- `MessageTrait::number` of the pre-encoded outbound messages. -/
def WireMessage.number : WireMessage → Nat
  | .ping _ => 0
  | .globalChat _ => 3
  | .privateChat _ => 5

/-- Events pushed onto the server event bus (`EventHandler`):
`broadcast_global_chat_message` and `private_chat_message_event`. -/
inductive ServerEvent
  | globalChat (m : GlobalChatMessage)
  | privateChat (e : PrivateChatMessageEvent)
deriving DecidableEq

/-- The handler-visible state of the newer backend `Connection`: the
authenticated user name (set by Login) and the outbound message queue. -/
structure ServerConnection where
  user_name : Option String
  messageQueue : List WireMessage
deriving DecidableEq

/-- `Connection::send_message(message)` as seen by the handlers and the
worker: append the pre-encoded message to the outbound queue.  (The
opportunistic flush it also performs drains the queue toward the socket but
does not change which messages were handed to the connection; the flush
itself is modelled on the send path, `BackendConnection.send`.) -/
def ServerConnection.send_message (c : ServerConnection) (m : WireMessage) :
    ServerConnection :=
  { c with messageQueue := c.messageQueue ++ [m] }

/-- `PingMessage::process`: reply to non-reply pings with the same nonce. -/
def PingMessage.process (m : PingMessage) (c : ServerConnection) :
    ServerConnection × List ServerEvent :=
  if !m.reply then (c.send_message (.ping ⟨m.nonce, true⟩), []) else (c, [])

/-- `LoginMessage::process`: set the connection's user name. -/
def LoginMessage.process (m : LoginMessage) (c : ServerConnection) :
    ServerConnection × List ServerEvent :=
  ({ c with user_name := some m.user_name }, [])

/-- `PublishGlobalChatMessage::process`: if logged in, emit a
`GlobalChatMessage` event on the bus; otherwise do nothing (the `None => {}`
arm), returning normally so the decode step still reports success. -/
def PublishGlobalChatMessage.process (m : PublishGlobalChatMessage)
    (c : ServerConnection) : ServerConnection × List ServerEvent :=
  match c.user_name with
  | some user_name => (c, [.globalChat ⟨user_name, m.message⟩])
  | none => (c, [])

/-- `GlobalChatMessage::process` on the server: ignored. -/
def GlobalChatMessage.process (_m : GlobalChatMessage) (c : ServerConnection) :
    ServerConnection × List ServerEvent :=
  (c, [])

/-- `PublishPrivateChatMessage::process`: if logged in, emit a
`PrivateChatMessageEvent`; otherwise do nothing. -/
def PublishPrivateChatMessage.process (m : PublishPrivateChatMessage)
    (c : ServerConnection) : ServerConnection × List ServerEvent :=
  match c.user_name with
  | some user_name => (c, [.privateChat ⟨user_name, m.to_user_name, m.message⟩])
  | none => (c, [])

/-- `PrivateChatMessage::process` on the server: ignored. -/
def PrivateChatMessage.process (_m : PrivateChatMessage) (c : ServerConnection) :
    ServerConnection × List ServerEvent :=
  (c, [])

/-! ## The worker's event drains (`backend/src/net/connection_thread.rs`) -/

/-- Drain arm for one `GlobalChatMessage` from the global-event channel:
build the pre-encoded message once, then `send_message` a copy to every
connection in the token map, with no filtering. -/
def drainGlobalChatMessage (g : GlobalChatMessage)
    (connections : List (Nat × ServerConnection)) : List (Nat × ServerConnection) :=
  connections.map (fun tc => (tc.1, tc.2.send_message (.globalChat g)))

/-- Drain arm for one `PrivateChatMessageEvent` from the private-event
channel: build the pre-encoded `PrivateChatMessage` once, then for every
connection whose `user_name` is `Some` and equals the event's
`to_user_name`, `send_message` a copy. -/
def drainPrivateChatMessageEvent (ev : PrivateChatMessageEvent)
    (connections : List (Nat × ServerConnection)) : List (Nat × ServerConnection) :=
  connections.map (fun tc =>
    match tc.2.user_name with
    | some user_name =>
      if user_name = ev.to_user_name then
        (tc.1, tc.2.send_message (.privateChat ⟨ev.from_user_name, ev.message⟩))
      else tc
    | none => tc)

/-! ## Shutdown (`backend/src/net/server_stop.rs` and the worker loop) -/

/-- `ServerStop::stop`: call `ServerThreadStop::stop` (store `true` into the
shared atomic) on every registered thread's flag. -/
def ServerStop.stop (server_thread_stops : List Bool) : List Bool :=
  server_thread_stops.map (fun _ => true)

/-- The events one worker-loop iteration can process (the waker drains;
connection socket events are modelled on the send path). -/
inductive WorkerEvent
  | wakerGlobal (g : GlobalChatMessage)
  | wakerPrivate (e : PrivateChatMessageEvent)
deriving DecidableEq

def processWorkerEvent (connections : List (Nat × ServerConnection))
    (e : WorkerEvent) : List (Nat × ServerConnection) :=
  match e with
  | .wakerGlobal g => drainGlobalChatMessage g connections
  | .wakerPrivate ev => drainPrivateChatMessageEvent ev connections

inductive PollResult
  | ok (events : List WorkerEvent)
  | err
deriving DecidableEq

inductive IterOutcome
  | exited
  | continued
deriving DecidableEq

/-- One iteration of the worker loop in `ConnectionThread::start`, in source
order: poll; on a poll error, log and `continue` (no flag check, no events);
otherwise check `server_thread_stop.should_stop()` and `return`; otherwise
process the polled events.  The third component is the list of events this
iteration actually processed. -/
def workerIteration (should_stop : Bool) (pr : PollResult)
    (connections : List (Nat × ServerConnection)) :
    IterOutcome × List (Nat × ServerConnection) × List WorkerEvent :=
  match pr with
  | .err => (.continued, connections, [])
  | .ok events =>
    if should_stop then (.exited, connections, [])
    else (.continued, events.foldl processWorkerEvent connections, events)

/-! ## The send path

`backend/src/net/connection.rs` (`Connection::send`, `send_message`) and
`frontend/src/net/connection.rs` (ditto, plus the `send_interest` flag and
`encode`).  Socket writes are driven by a script of outcomes; an exhausted
script behaves like `WouldBlock` (the socket accepts no more bytes now).
`RegAction` records the `registry.reregister` calls in order. -/

inductive WriteRes
  | ok (n : Nat)
  | wouldBlock
  | interrupted
  | fatal
deriving DecidableEq

inductive RegAction
  | regReadable
  | regReadWrite
deriving DecidableEq

/-- The send-relevant state of the backend `Connection`: the outbound queue
(`VecDeque<String>`, kept as byte lists), the current out buffer and the
write cursor into it. -/
structure BackendConnection where
  message_queue : List (List Nat)
  out_buffer : List Nat
  out_buffer_pos : Nat
deriving DecidableEq

/-- The queue-pop phase at the top of backend `Connection::send`: if the out
buffer is empty, pop the next message into it, or — queue also empty —
reregister with read-only interest (unconditionally: this `Connection` has
no write-interest flag) and skip the write. -/
def BackendConnection.sendPrep (c : BackendConnection) :
    BackendConnection × List RegAction × Bool :=
  if c.out_buffer = [] then
    match c.message_queue with
    | m :: rest => ({ c with message_queue := rest, out_buffer := m, out_buffer_pos := 0 },
        [], true)
    | [] => (c, [.regReadable], false)
  else (c, [], true)

/-- Backend `Connection::send`.  Returns (close verdict, state,
reregistrations, remaining socket script).  A partial write stores the
written count into `out_buffer_pos` (as the source does) and arms
read+write interest; `Interrupted` retries via a recursive call whose
verdict is discarded (the source writes `self.send();` and falls through to
`return false`); other errors are fatal (`return true`). -/
def BackendConnection.send : BackendConnection → List WriteRes →
    Bool × BackendConnection × List RegAction × List WriteRes
  | c0, [] =>
    match BackendConnection.sendPrep c0 with
    | (c, regs, _) => (false, c, regs, [])
  | c0, r :: rest =>
    match BackendConnection.sendPrep c0 with
    | (c, regs, should_send) =>
      if should_send then
        match r with
        | .ok n =>
          if n = c.out_buffer.length - c.out_buffer_pos then
            (false, { c with out_buffer := [], out_buffer_pos := 0 }, regs, rest)
          else
            (false, { c with out_buffer_pos := n }, regs ++ [.regReadWrite], rest)
        | .wouldBlock => (false, c, regs, rest)
        | .interrupted =>
          match BackendConnection.send c rest with
          | (_, c2, regs2, rest2) => (false, c2, regs ++ regs2, rest2)
        | .fatal => (true, c, regs, rest)
      else (false, c, regs, r :: rest)

/-- Backend `Connection::send_message`: push onto the queue, then call
`send()` opportunistically — its close verdict is discarded
(`// return value of send is ignored!!!!`). -/
def BackendConnection.send_message (c : BackendConnection) (message : List Nat)
    (script : List WriteRes) : BackendConnection × List RegAction × List WriteRes :=
  ((BackendConnection.send { c with message_queue := c.message_queue ++ [message] }
      script).2.1,
   (BackendConnection.send { c with message_queue := c.message_queue ++ [message] }
      script).2.2.1,
   (BackendConnection.send { c with message_queue := c.message_queue ++ [message] }
      script).2.2.2)

/-- The send-relevant state of the frontend `Connection`: queued messages
(payload bytes and message number, pre-serialization), the live bytes of the
fixed out buffer (`out_buffer[0..out_buffer_size]`), the write cursor, and
the `send_interest` flag. -/
structure FrontendConnection where
  message_queue : List (List Nat × Nat)
  out_buffer : List Nat
  out_buffer_pos : Nat
  send_interest : Bool
deriving DecidableEq

inductive FPrep
  | ret (close : Bool) (c : FrontendConnection) (regs : List RegAction)
  | panicked
  | go (c : FrontendConnection)
deriving DecidableEq

/-- The top of the frontend `Connection::send` loop: with an empty out
buffer, pop and encode the next message (encode failure closes; the
out-of-bounds write panics), or — queue empty — disarm write interest
(reregister read-only) only if `send_interest` is currently set. -/
def FrontendConnection.sendPrep (c : FrontendConnection) : FPrep :=
  if c.out_buffer = [] then
    match c.message_queue with
    | [] =>
      if c.send_interest then
        .ret false { c with send_interest := false } [.regReadable]
      else
        .ret false c []
    | (msg, num) :: qrest =>
      match Connection.encode msg num with
      | .tooLong => .ret true { c with message_queue := qrest } []
      | .outOfBounds => .panicked
      | .ok bytes => .go { c with
          message_queue := qrest,
          out_buffer := bytes,
          out_buffer_pos := 0 }
  else .go c

inductive FSendRes
  | res (close : Bool) (c : FrontendConnection) (regs : List RegAction)
      (rest : List WriteRes)
  | panicked (regs : List RegAction)
deriving DecidableEq

/-- Frontend `Connection::send`: the loop writes the current buffer; a full
write clears it and loops to try the next message; a partial write or
`WouldBlock` arms read+write interest if (and only if) it is not already
armed, then returns; `Interrupted` returns `self.send()`; other errors
return close. -/
def FrontendConnection.send : FrontendConnection → List WriteRes → FSendRes
  | c0, [] =>
    match FrontendConnection.sendPrep c0 with
    | .ret close c regs => .res close c regs []
    | .panicked => .panicked []
    | .go c =>
      if c.send_interest then .res false c [] []
      else .res false { c with send_interest := true } [.regReadWrite] []
  | c0, r :: rest =>
    match FrontendConnection.sendPrep c0 with
    | .ret close c regs => .res close c regs (r :: rest)
    | .panicked => .panicked []
    | .go c =>
      match r with
      | .ok n =>
        if n = c.out_buffer.length - c.out_buffer_pos then
          FrontendConnection.send { c with out_buffer := [], out_buffer_pos := 0 } rest
        else
          if c.send_interest then .res false { c with out_buffer_pos := n } [] rest
          else .res false { c with out_buffer_pos := n, send_interest := true }
            [.regReadWrite] rest
      | .wouldBlock =>
        if c.send_interest then .res false c [] rest
        else .res false { c with send_interest := true } [.regReadWrite] rest
      | .interrupted => FrontendConnection.send c rest
      | .fatal => .res true c [] rest

/-! ## C10: `send_message` drops the close verdict -/

/-- The worker's global-broadcast drain over backend connections with their
socket scripts: `send_message` on every connection; its (discarded) verdict
cannot remove anything from the map. -/
def drainGlobalBackend (message : List Nat)
    (conns : List (Nat × BackendConnection × List WriteRes)) :
    List (Nat × BackendConnection × List WriteRes) :=
  conns.map (fun t =>
    (t.1, (BackendConnection.send_message t.2.1 message t.2.2).1,
      (BackendConnection.send_message t.2.1 message t.2.2).2.2))

/-- The worker's socket-event arm for a writable event
(`connection_thread.rs`): `remove_connection = connection.send()`; if the
verdict is close, the connection is deregistered and removed from the map. -/
def connectionWritableEvent (token : Nat)
    (conns : List (Nat × BackendConnection × List WriteRes)) :
    List (Nat × BackendConnection × List WriteRes) :=
  conns.foldr (fun t acc =>
    if t.1 = token then
      if (BackendConnection.send t.2.1 t.2.2).1 then acc
      else (t.1, (BackendConnection.send t.2.1 t.2.2).2.1,
        (BackendConnection.send t.2.1 t.2.2).2.2.2) :: acc
    else t :: acc) []

theorem natDigitsAux_fuel {f g n : Nat} (hf : n < f) (hg : n < g) :
    natDigitsAux f n = natDigitsAux g n := by
  induction f generalizing g n with
  | zero => omega
  | succ f ih =>
    cases g with
    | zero => omega
    | succ g =>
      simp only [natDigitsAux]
      by_cases h : n < 10
      · simp [h]
      · have hd : n / 10 < n := Nat.div_lt_self (by omega) (by omega)
        have h2 : natDigitsAux f (n / 10) = natDigitsAux g (n / 10) :=
          ih (by omega) (by omega)
        simp only [h, if_false, h2]

theorem natDigits_eq (n : Nat) :
    natDigits n = if n < 10 then [48 + n] else natDigits (n / 10) ++ [48 + n % 10] := by
  by_cases h : n < 10
  · simp [natDigits, natDigitsAux, h]
  · have hd : n / 10 < n := Nat.div_lt_self (by omega) (by omega)
    have h1 : natDigits n = natDigitsAux n (n / 10) ++ [48 + n % 10] := by
      simp [natDigits, natDigitsAux, h]
    have h2 : natDigitsAux n (n / 10) = natDigitsAux (n / 10 + 1) (n / 10) :=
      natDigitsAux_fuel (by omega) (by omega)
    rw [h1, h2]
    simp only [h, if_false, natDigits]

theorem natDigits_ne_nil (n : Nat) : natDigits n ≠ [] := by
  rw [natDigits_eq]
  by_cases h : n < 10 <;> simp [h]

theorem natDigits_all_digits (n : Nat) : ∀ d ∈ natDigits n, isDigitByte d = true := by
  induction n using Nat.strong_induction_on with
  | _ n ih =>
    rw [natDigits_eq]
    by_cases h : n < 10
    · simp only [h, if_true, List.mem_singleton]
      rintro d rfl
      simp only [isDigitByte, Bool.and_eq_true, decide_eq_true_eq]
      omega
    · have hd : n / 10 < n := Nat.div_lt_self (by omega) (by omega)
      simp only [h, if_false, List.mem_append, List.mem_singleton]
      rintro d (hmem | rfl)
      · exact ih _ hd d hmem
      · have : n % 10 < 10 := Nat.mod_lt _ (by omega)
        simp only [isDigitByte, Bool.and_eq_true, decide_eq_true_eq]
        omega

theorem digitsVal_append (xs ys : List Nat) :
    digitsVal (xs ++ ys) = ys.foldl (fun a d => 10 * a + (d - 48)) (digitsVal xs) := by
  simp [digitsVal, List.foldl_append]

theorem digitsVal_natDigits (n : Nat) : digitsVal (natDigits n) = n := by
  induction n using Nat.strong_induction_on with
  | _ n ih =>
    rw [natDigits_eq]
    by_cases h : n < 10
    · simp only [h, if_true, digitsVal, List.foldl_cons, List.foldl_nil]
      omega
    · have hd : n / 10 < n := Nat.div_lt_self (by omega) (by omega)
      simp only [h, if_false, digitsVal_append, ih _ hd, List.foldl_cons, List.foldl_nil]
      omega

theorem isDigitByte_not_ws {d : Nat} (h : isDigitByte d = true) : isWsByte d = false := by
  simp only [isDigitByte, Bool.and_eq_true, decide_eq_true_eq] at h
  simp only [isWsByte, Bool.or_eq_false_iff, Bool.and_eq_false_iff, decide_eq_false_iff_not]
  omega

theorem stripPlus_of_head_digit {x : Nat} {xs : List Nat} (hx : isDigitByte x = true) :
    stripPlus (x :: xs) = x :: xs := by
  have hx43 : x ≠ 43 := by
    simp only [isDigitByte, Bool.and_eq_true, decide_eq_true_eq] at hx
    omega
  unfold stripPlus
  split
  · next rest heq =>
    injection heq with h1 h2
    omega
  · rfl

theorem parseUsizeBytes_digits {ds : List Nat} (hne : ds ≠ [])
    (hd : ∀ d ∈ ds, isDigitByte d = true) :
    parseUsizeBytes ds = some (digitsVal ds) := by
  have hall : ds.all isDigitByte = true := by
    rw [List.all_eq_true]; exact hd
  cases ds with
  | nil => exact absurd rfl hne
  | cons x xs =>
    have hx : isDigitByte x = true := hd x (List.mem_cons_self x xs)
    simp only [parseUsizeBytes, stripPlus_of_head_digit hx]
    simp [hall]

/-- Parsing fails whenever the (plus-stripped) input contains a non-digit. -/
theorem parseUsizeBytes_none_of_bad {bs : List Nat}
    (h : ∃ d ∈ stripPlus bs, isDigitByte d = false) :
    parseUsizeBytes bs = none := by
  obtain ⟨d, hmem, hbad⟩ := h
  simp only [parseUsizeBytes]
  have hne : stripPlus bs ≠ [] := by
    intro hnil
    rw [hnil] at hmem
    exact absurd hmem (List.not_mem_nil d)
  have hall : (stripPlus bs).all isDigitByte = false := by
    rw [Bool.eq_false_iff]
    intro hx
    rw [List.all_eq_true] at hx
    rw [hx d hmem] at hbad
    exact absurd hbad (by decide)
  simp [hne, hall]

theorem trimStartBytes_pad {k : Nat} {ds : List Nat}
    (hhead : ∀ d ∈ ds.take 1, isWsByte d = false) :
    trimStartBytes (List.replicate k 32 ++ ds) = ds := by
  induction k with
  | zero =>
    simp only [List.replicate, List.nil_append]
    cases ds with
    | nil => rfl
    | cons x xs =>
      have := hhead x (by simp)
      simp [trimStartBytes, List.dropWhile_cons, this]
  | succ k ih =>
    simp only [List.replicate, List.cons_append, trimStartBytes, List.dropWhile_cons]
    have : isWsByte 32 = true := by decide
    rw [this]
    simpa [trimStartBytes] using ih

theorem trimEndBytes_pad {k : Nat} {ds : List Nat}
    (hhead : ∀ d ∈ ds.reverse.take 1, isWsByte d = false) :
    trimEndBytes (ds ++ List.replicate k 32) = ds := by
  simp only [trimEndBytes, List.reverse_append, List.reverse_replicate]
  have h1 : (List.replicate k 32 ++ ds.reverse).dropWhile isWsByte = ds.reverse := by
    have := @trimStartBytes_pad k ds.reverse hhead
    simpa [trimStartBytes] using this
  rw [h1, List.reverse_reverse]

theorem decodeHeader_inBuffer {trim c c1} (h : decodeHeader trim c = some c1) :
    c1.inBuffer = c.inBuffer ∧
      (c1.state = .waitingForHeader ∨ c1.state = .headerSuccessfulRead) := by
  unfold decodeHeader at h
  split at h
  · exact ⟨by injection h with h1; rw [← h1], by injection h with h1; rw [← h1]; left; rfl⟩
  · split at h
    · exact absurd h (by simp)
    · split at h
      · exact absurd h (by simp)
      · split at h
        · exact absurd h (by simp)
        · split at h
          · exact absurd h (by simp)
          · exact ⟨by injection h with h1; rw [← h1],
                   by injection h with h1; rw [← h1]; right; rfl⟩

theorem decodePayload_shrink {handler c c1 tr} (h : decodePayload handler c = some (c1, tr))
    (hs : c1.state = .payloadSuccessfulRead) :
    c1.inBuffer.length < c.inBuffer.length := by
  unfold decodePayload at h
  split at h
  · simp only [Option.some.injEq, Prod.mk.injEq] at h
    rw [← h.1] at hs
    exact absurd hs (by simp)
  · next hlen =>
    split at h
    · simp only [Option.some.injEq, Prod.mk.injEq] at h
      rw [← h.1]
      rw [List.length_drop]
      simp only [HEADER_SIZE] at hlen ⊢
      omega
    · exact absurd h (by simp)

theorem processStates_shrink {trim handler c c1 tr}
    (h : processStates trim handler c = some (c1, tr))
    (hs : c1.state = .payloadSuccessfulRead) :
    c1.inBuffer.length < c.inBuffer.length := by
  have headerCase : ∀ h2 : (match decodeHeader trim c with
      | none => none
      | some cH =>
        if cH.state = MessageDecodeState.headerSuccessfulRead then decodePayload handler cH
        else some (cH, ([] : List (Nat × List Nat)))) = some (c1, tr),
      c1.inBuffer.length < c.inBuffer.length := by
    intro h2
    split at h2
    · exact absurd h2 (by simp)
    · next cH hh =>
      obtain ⟨hbuf, hst⟩ := decodeHeader_inBuffer hh
      split at h2
      · have h3 := decodePayload_shrink h2 hs
        rw [hbuf] at h3
        exact h3
      · simp only [Option.some.injEq, Prod.mk.injEq] at h2
        rw [← h2.1] at hs
        rcases hst with hst | hst <;> rw [hst] at hs <;> exact absurd hs (by simp)
  unfold processStates at h
  split at h
  · exact headerCase h
  · exact headerCase h
  · exact decodePayload_shrink h hs
  · exact decodePayload_shrink h hs

theorem decodeGo_fuel {trim handler} :
    ∀ {f1 f2 : Nat} {c : ConnState}, c.inBuffer.length < f1 → c.inBuffer.length < f2 →
      decodeGo trim handler f1 c = decodeGo trim handler f2 c := by
  intro f1
  induction f1 with
  | zero => intro f2 c h1 _; omega
  | succ f1 ih =>
    intro f2 c h1 h2
    cases f2 with
    | zero => omega
    | succ f2 =>
      simp only [decodeGo]
      rcases hp : processStates trim handler c with _ | ⟨c1, tr⟩
      · rfl
      · dsimp only
        by_cases hs : c1.state = .payloadSuccessfulRead
        · have hlt := processStates_shrink hp hs
          have he : decodeGo trim handler f1 c1 = decodeGo trim handler f2 c1 :=
            ih (by omega) (by omega)
          simp only [if_pos hs, he]
        · simp only [if_neg hs]

/-! ## Helper lemmas on fields and trimming -/

theorem padField_length {w : Nat} {ds : List Nat} (h : ds.length ≤ w) :
    (padField w ds).length = w := by
  simp only [padField, List.length_append, List.length_take, List.length_replicate]
  omega

theorem padField_of_le {w : Nat} {ds : List Nat} (h : ds.length ≤ w) :
    padField w ds = ds ++ List.replicate (w - ds.length) 32 := by
  simp only [padField, List.take_of_length_le h]

theorem stripPlus_of_head_ne {x : Nat} {xs : List Nat} (hx : x ≠ 43) :
    stripPlus (x :: xs) = x :: xs := by
  unfold stripPlus
  split
  · next rest heq =>
    injection heq with h1 h2
    omega
  · rfl

theorem trimStartBytes_of_head_digit {d : Nat} {rest : List Nat}
    (h : isDigitByte d = true) : trimStartBytes (d :: rest) = d :: rest := by
  simp [trimStartBytes, List.dropWhile_cons, isDigitByte_not_ws h]

theorem trimEndBytes_of_last_digit {bs : List Nat}
    (h : ∀ d ∈ bs.reverse.take 1, isDigitByte d = true) (hne : bs ≠ []) :
    trimEndBytes bs = bs := by
  simp only [trimEndBytes]
  rcases hrev : bs.reverse with _ | ⟨d, rest⟩
  · have : bs = [] := by
      have := congrArg List.reverse hrev
      simpa using this
    exact absurd this hne
  · have hd : isDigitByte d = true := by
      apply h
      rw [hrev]
      simp
    have hdw : List.dropWhile isWsByte (d :: rest) = d :: rest := by
      simp [List.dropWhile_cons, isDigitByte_not_ws hd]
    rw [hdw, ← hrev, List.reverse_reverse]

theorem natDigits_head_digit (v : Nat) :
    ∀ d ∈ (natDigits v).take 1, isWsByte d = false := by
  intro d hd
  exact isDigitByte_not_ws (natDigits_all_digits v d (List.mem_of_mem_take hd))

theorem natDigits_last_digit (v : Nat) :
    ∀ d ∈ (natDigits v).reverse.take 1, isWsByte d = false := by
  intro d hd
  exact isDigitByte_not_ws
    (natDigits_all_digits v d (List.mem_reverse.mp (List.mem_of_mem_take hd)))

/-- Parsing the trim of a right-padded (trailing-space) field with `trim_start`
fails whenever padding is present: the trailing spaces survive and
`str::parse` rejects them. -/
theorem parse_trimStart_padRight {v w : Nat} (h : (natDigits v).length < w) :
    parseUsizeBytes (trimStartBytes (padField w (natDigits v))) = none := by
  obtain ⟨d, rest, hd⟩ := List.exists_cons_of_ne_nil (natDigits_ne_nil v)
  have hdig : isDigitByte d = true := by
    apply natDigits_all_digits v
    rw [hd]
    exact List.mem_cons_self d rest
  rw [padField_of_le (le_of_lt h)]
  rw [hd] at h ⊢
  rw [List.cons_append, trimStartBytes_of_head_digit hdig]
  apply parseUsizeBytes_none_of_bad
  refine ⟨32, ?_, by decide⟩
  rw [stripPlus_of_head_digit hdig]
  apply List.mem_cons_of_mem
  apply List.mem_append.mpr
  right
  rw [List.mem_replicate]
  exact ⟨by omega, rfl⟩

/-- Parsing a right-padded field with `trim_end` succeeds with the value. -/
theorem parse_trimEnd_padRight {v w : Nat} (h : (natDigits v).length ≤ w) :
    parseUsizeBytes (trimEndBytes (padField w (natDigits v))) = some v := by
  rw [padField_of_le h]
  rw [trimEndBytes_pad (natDigits_last_digit v)]
  rw [parseUsizeBytes_digits (natDigits_ne_nil v) (natDigits_all_digits v)]
  rw [digitsVal_natDigits]

/-- Parsing a left-padded field with `trim_start` succeeds with the value. -/
theorem parse_trimStart_padLeft (v w : Nat) :
    parseUsizeBytes (trimStartBytes (padFieldLeft w (natDigits v))) = some v := by
  rw [padFieldLeft, trimStartBytes_pad (natDigits_head_digit v)]
  rw [parseUsizeBytes_digits (natDigits_ne_nil v) (natDigits_all_digits v)]
  rw [digitsVal_natDigits]

/-- Parsing a left-padded field with `trim_end` fails whenever padding is
present: the leading spaces survive and `str::parse` rejects them. -/
theorem parse_trimEnd_padLeft {v w : Nat} (h : (natDigits v).length < w) :
    parseUsizeBytes (trimEndBytes (padFieldLeft w (natDigits v))) = none := by
  have hne : natDigits v ≠ [] := natDigits_ne_nil v
  have hlast : ∀ d ∈ (padFieldLeft w (natDigits v)).reverse.take 1, isDigitByte d = true := by
    intro d hd
    rw [padFieldLeft, List.reverse_append, List.reverse_replicate] at hd
    rcases hrev : (natDigits v).reverse with _ | ⟨x, xt⟩
    · exact absurd (by simpa using congrArg List.reverse hrev) hne
    · rw [hrev, List.cons_append, List.take_succ_cons, List.take_zero] at hd
      have hdx : d = x := by simpa using hd
      have hxmem : x ∈ natDigits v := by
        rw [← List.mem_reverse, hrev]
        exact List.mem_cons_self x xt
      rw [hdx]
      exact natDigits_all_digits v x hxmem
  have hpadne : padFieldLeft w (natDigits v) ≠ [] := by
    have hlen : (padFieldLeft w (natDigits v)).length ≠ 0 := by
      rcases hds : natDigits v with _ | ⟨x, xt⟩
      · exact absurd hds hne
      · simp [padFieldLeft, List.length_append]
    intro hnil
    rw [hnil] at hlen
    exact hlen rfl
  rw [trimEndBytes_of_last_digit hlast hpadne]
  obtain ⟨k, hk2⟩ : ∃ k, w - (natDigits v).length = k + 1 := ⟨w - (natDigits v).length - 1, by omega⟩
  rw [padFieldLeft, hk2, List.replicate_succ, List.cons_append]
  apply parseUsizeBytes_none_of_bad
  refine ⟨32, ?_, by decide⟩
  rw [stripPlus_of_head_ne (by omega)]
  exact List.mem_cons_self _ _

theorem padFieldLeft_length {w : Nat} {ds : List Nat} (h : ds.length ≤ w) :
    (padFieldLeft w ds).length = w := by
  simp only [padFieldLeft, List.length_append, List.length_replicate]
  omega

theorem slice_append {w : Nat} (pre field post : List Nat) (h : field.length = w) :
    ((pre ++ field ++ post).drop pre.length).take w = field := by
  rw [List.append_assoc, List.drop_left, ← h, List.take_left]

/-- C3, counterexample.  The claim says each header-field parser accepts both
trailing-space and leading-space padding; but on the message-number field
bytes "2  " (trailing padding, exactly what the encoder emits) the backend
parser (`trim_start`) fails, and on "  2" (leading padding) the frontend
parser (`trim_end`) fails. -/
theorem claim_C3_counterexample :
    getUsizeBackend (MAGIC ++ [50, 32, 32] ++ [49, 50, 32, 32, 32]) 8 11 = none ∧
    getUsizeFrontend (MAGIC ++ [32, 32, 50] ++ [49, 50, 32, 32, 32]) 8 11 = none := by
  constructor
  · rfl
  · rfl

/-- C3, amended.  Each parser accepts exactly one padding side: the backend
(`trim_start`) parses a leading-space-padded field and rejects a
trailing-space-padded one, the frontend (`trim_end`) parses a
trailing-space-padded field and rejects a leading-space-padded one —
whenever the decimal value is shorter than the field so that padding is
actually present. -/
theorem claim_C3_one_side_each (v w : Nat) (pre post : List Nat)
    (hw : (natDigits v).length < w) :
    getUsizeBackend (pre ++ padFieldLeft w (natDigits v) ++ post)
        pre.length (pre.length + w) = some v ∧
    getUsizeBackend (pre ++ padField w (natDigits v) ++ post)
        pre.length (pre.length + w) = none ∧
    getUsizeFrontend (pre ++ padField w (natDigits v) ++ post)
        pre.length (pre.length + w) = some v ∧
    getUsizeFrontend (pre ++ padFieldLeft w (natDigits v) ++ post)
        pre.length (pre.length + w) = none := by
  have hle := Nat.le_of_lt hw
  have hpl : (padFieldLeft w (natDigits v)).length = w := padFieldLeft_length hle
  have hpr : (padField w (natDigits v)).length = w := padField_length hle
  have hsub : pre.length + w - pre.length = w := by omega
  refine ⟨?_, ?_, ?_, ?_⟩
  · rw [getUsizeBackend, getUsizeWith, hsub, slice_append _ _ _ hpl]
    exact parse_trimStart_padLeft v w
  · rw [getUsizeBackend, getUsizeWith, hsub, slice_append _ _ _ hpr]
    exact parse_trimStart_padRight hw
  · rw [getUsizeFrontend, getUsizeWith, hsub, slice_append _ _ _ hpr]
    exact parse_trimEnd_padRight hle
  · rw [getUsizeFrontend, getUsizeWith, hsub, slice_append _ _ _ hpl]
    exact parse_trimEnd_padLeft hw

/-- Witness for `claim_C3_one_side_each` at value 2, width 3 (the
message-number field of a frame, `pre = MAGIC`). -/
theorem claim_C3_one_side_each_witness :
    getUsizeBackend (MAGIC ++ padFieldLeft 3 (natDigits 2) ++ [49, 50, 32, 32, 32])
        MAGIC.length (MAGIC.length + 3) = some 2 ∧
    getUsizeBackend (MAGIC ++ padField 3 (natDigits 2) ++ [49, 50, 32, 32, 32])
        MAGIC.length (MAGIC.length + 3) = none ∧
    getUsizeFrontend (MAGIC ++ padField 3 (natDigits 2) ++ [49, 50, 32, 32, 32])
        MAGIC.length (MAGIC.length + 3) = some 2 ∧
    getUsizeFrontend (MAGIC ++ padFieldLeft 3 (natDigits 2) ++ [49, 50, 32, 32, 32])
        MAGIC.length (MAGIC.length + 3) = none :=
  claim_C3_one_side_each 2 3 MAGIC [49, 50, 32, 32, 32] (by decide)

/-- C2.  The claim states that `encode` succeeds for every payload up to
`MAX_PAYLOAD` (1024) bytes and never writes out of bounds.  In the code the
output buffer is `Box<[u8; MAX_PAYLOAD]>`, not `MAX_PACKET_SIZE`, so a
payload of 1009..1024 bytes passes the length check and then panics writing
byte `16 + 1008 = 1024` of a 1024-byte buffer.  At 1008 bytes the claimed
layout (magic, 3-byte padded message number, 5-byte padded length, payload)
is produced, and above 1024 bytes encode returns `false`. -/
theorem claim_C2_encode_out_of_bounds :
    Connection.encode (List.replicate 1009 97) 2 = EncodeResult.outOfBounds ∧
    Connection.encode (List.replicate 1025 97) 2 = EncodeResult.tooLong ∧
    Connection.encode (List.replicate 1008 97) 2 =
      EncodeResult.ok (MAGIC ++ [50, 32, 32] ++ [49, 48, 48, 56, 32] ++
        List.replicate 1008 97) := by
  refine ⟨rfl, rfl, rfl⟩

theorem Frame.bytes_length {trim handler} {f : Frame} (hv : ValidFrame trim handler f) :
    f.bytes.length = HEADER_SIZE + f.payload.length := by
  simp [Frame.bytes, List.length_append, hv.1]

/-! ### Slice stability lemmas -/

theorem take_append_left {l₁ l₂ : List Nat} {n : Nat} (h : n ≤ l₁.length) :
    (l₁ ++ l₂).take n = l₁.take n := by
  rw [List.take_append_eq_append_take]
  have h0 : n - l₁.length = 0 := by omega
  rw [h0, List.take_zero, List.append_nil]

theorem slice_take_eq {l₁ l₂ : List Nat} {s e n : Nat}
    (h : l₁.take n = l₂.take n) (hse : e ≤ n) :
    (l₁.drop s).take (e - s) = (l₂.drop s).take (e - s) := by
  have h1 : ∀ l : List Nat, (l.drop s).take (e - s) = (l.take e).drop s := by
    intro l
    rw [List.drop_take]
  rw [h1, h1]
  have h2 : l₁.take e = l₂.take e := by
    have e1 : l₁.take e = (l₁.take n).take e := by
      rw [List.take_take, Nat.min_eq_left hse]
    have e2 : l₂.take e = (l₂.take n).take e := by
      rw [List.take_take, Nat.min_eq_left hse]
    rw [e1, e2, h]
  rw [h2]

theorem getUsizeWith_eq_of_take_eq {trim : List Nat → List Nat} {l₁ l₂ : List Nat}
    {s e n : Nat} (h : l₁.take n = l₂.take n) (hse : e ≤ n) :
    getUsizeWith trim l₁ s e = getUsizeWith trim l₂ s e := by
  unfold getUsizeWith
  rw [slice_take_eq h hse]

/-! ### One decoding step on a complete leading frame -/

theorem decodeHeader_frame {trim : List Nat → List Nat} {handler : Nat → List Nat → Bool}
    {f : Frame} {rest : List Nat} {c : ConnState}
    (hv : ValidFrame trim handler f) (hbuf : c.inBuffer = f.bytes ++ rest) :
    decodeHeader trim c = some { c with
      messageNumber := f.msgNum,
      payloadSize := f.payload.length,
      state := .headerSuccessfulRead } := by
  obtain ⟨hlen, hmagic, hmn, hps, hp1, hp2, -⟩ := hv
  have hblen : c.inBuffer.length = HEADER_SIZE + f.payload.length + rest.length := by
    rw [hbuf]
    simp [Frame.bytes, hlen]
    omega
  have htake16 : c.inBuffer.take HEADER_SIZE = f.header.take HEADER_SIZE := by
    rw [hbuf, Frame.bytes, List.append_assoc]
    rw [take_append_left (by omega)]
  have hmn2 : getUsizeWith trim c.inBuffer 8 11 = some f.msgNum := by
    rw [getUsizeWith_eq_of_take_eq htake16 (by simp [HEADER_SIZE])]
    exact hmn
  have hps2 : getUsizeWith trim c.inBuffer 11 16 = some f.payload.length := by
    rw [getUsizeWith_eq_of_take_eq htake16 (by simp [HEADER_SIZE])]
    exact hps
  have hmin : min 8 HEADER_SIZE = 8 := by decide
  have hmagic2 : c.inBuffer.take 8 = MAGIC := by
    have e1 : c.inBuffer.take 8 = (c.inBuffer.take HEADER_SIZE).take 8 := by
      rw [List.take_take, hmin]
    rw [e1, htake16, List.take_take, hmin]
    exact hmagic
  unfold decodeHeader
  rw [if_neg (by omega : ¬ c.inBuffer.length < HEADER_SIZE)]
  rw [if_neg (by rw [hmagic2]; exact fun hcon => hcon rfl)]
  rw [hmn2, hps2]
  have hrange : ¬ (f.payload.length = 0 ∨ MAX_PAYLOAD < f.payload.length) := by
    simp only [MAX_PAYLOAD] at hp2 ⊢
    omega
  simp only [hrange, if_false]

theorem decodePayload_frame {handler : Nat → List Nat → Bool}
    {f : Frame} {rest : List Nat} {c : ConnState}
    (hh : f.header.length = HEADER_SIZE) (hhandler : handler f.msgNum f.payload = true)
    (hbuf : c.inBuffer = f.bytes ++ rest)
    (hmn : c.messageNumber = f.msgNum) (hps : c.payloadSize = f.payload.length) :
    decodePayload handler c =
      some ({ c with inBuffer := rest, state := .payloadSuccessfulRead },
            [(f.msgNum, f.payload)]) := by
  have hblen : c.inBuffer.length = HEADER_SIZE + f.payload.length + rest.length := by
    rw [hbuf]
    simp [Frame.bytes, hh]
    omega
  have hpayload : (c.inBuffer.drop HEADER_SIZE).take c.payloadSize = f.payload := by
    rw [hbuf, Frame.bytes, List.append_assoc, ← hh, List.drop_left, hps, List.take_left]
  have hdrop : c.inBuffer.drop (c.payloadSize + HEADER_SIZE) = rest := by
    rw [hbuf, Frame.bytes]
    have hl : (f.header ++ f.payload).length = c.payloadSize + HEADER_SIZE := by
      simp only [List.length_append, hh, hps]
      omega
    rw [← hl, List.drop_left]
  rw [hps] at hdrop
  unfold decodePayload
  rw [if_neg (by omega : ¬ c.inBuffer.length < c.payloadSize + HEADER_SIZE)]
  rw [hpayload, hmn, hhandler]
  simp only [if_true, hps, hdrop]

theorem decodeGo_succ {trim : List Nat → List Nat} {handler : Nat → List Nat → Bool}
    {fuel : Nat} {c : ConnState} :
    decodeGo trim handler (fuel + 1) c =
      match processStates trim handler c with
      | none => none
      | some (c1, tr) =>
        if c1.state = .payloadSuccessfulRead then
          match decodeGo trim handler fuel c1 with
          | none => none
          | some (c2, tr2) => some (c2, tr ++ tr2)
        else some (c1, tr) := rfl

theorem processStates_header_entry {trim : List Nat → List Nat}
    {handler : Nat → List Nat → Bool} {c : ConnState}
    (hs : c.state = .waitingForHeader ∨ c.state = .payloadSuccessfulRead) :
    processStates trim handler c =
      match decodeHeader trim c with
      | none => none
      | some c1 =>
        if c1.state = .headerSuccessfulRead then decodePayload handler c1
        else some (c1, []) := by
  rcases hs with hs | hs <;> (unfold processStates; rw [hs])

theorem processStates_payload_entry {trim : List Nat → List Nat}
    {handler : Nat → List Nat → Bool} {c : ConnState}
    (hs : c.state = .waitingForPayload) :
    processStates trim handler c = decodePayload handler c := by
  unfold processStates
  rw [hs]

theorem decodeHeader_waiting {trim : List Nat → List Nat} {c : ConnState}
    (h : c.inBuffer.length < HEADER_SIZE) :
    decodeHeader trim c = some { c with state := .waitingForHeader } := by
  unfold decodeHeader
  rw [if_pos h]

theorem decodePayload_waiting {handler : Nat → List Nat → Bool} {c : ConnState}
    (h : c.inBuffer.length < c.payloadSize + HEADER_SIZE) :
    decodePayload handler c = some ({ c with state := .waitingForPayload }, []) := by
  unfold decodePayload
  rw [if_pos h]

theorem decodeHeader_of_take16 {trim : List Nat → List Nat}
    {handler : Nat → List Nat → Bool} {g : Frame} {c : ConnState}
    (hv : ValidFrame trim handler g)
    (h16 : HEADER_SIZE ≤ c.inBuffer.length)
    (htake16 : c.inBuffer.take HEADER_SIZE = g.header.take HEADER_SIZE) :
    decodeHeader trim c = some { c with
      messageNumber := g.msgNum,
      payloadSize := g.payload.length,
      state := .headerSuccessfulRead } := by
  obtain ⟨hlen, hmagic, hmn, hps, hp1, hp2, -⟩ := hv
  have hmn2 : getUsizeWith trim c.inBuffer 8 11 = some g.msgNum := by
    rw [getUsizeWith_eq_of_take_eq htake16 (by simp [HEADER_SIZE])]
    exact hmn
  have hps2 : getUsizeWith trim c.inBuffer 11 16 = some g.payload.length := by
    rw [getUsizeWith_eq_of_take_eq htake16 (by simp [HEADER_SIZE])]
    exact hps
  have hmin : min 8 HEADER_SIZE = 8 := by decide
  have hmagic2 : c.inBuffer.take 8 = MAGIC := by
    have e1 : c.inBuffer.take 8 = (c.inBuffer.take HEADER_SIZE).take 8 := by
      rw [List.take_take, hmin]
    rw [e1, htake16, List.take_take, hmin]
    exact hmagic
  unfold decodeHeader
  rw [if_neg (by omega : ¬ c.inBuffer.length < HEADER_SIZE)]
  rw [if_neg (by rw [hmagic2]; exact fun hcon => hcon rfl)]
  rw [hmn2, hps2]
  have hrange : ¬ (g.payload.length = 0 ∨ MAX_PAYLOAD < g.payload.length) := by
    simp only [MAX_PAYLOAD] at hp2 ⊢
    omega
  simp only [hrange, if_false]

theorem framesBytes_cons (f : Frame) (ft : List Frame) :
    framesBytes (f :: ft) = f.bytes ++ framesBytes ft := by
  simp [framesBytes]

theorem framePairs_cons (f : Frame) (ft : List Frame) :
    framePairs (f :: ft) = (f.msgNum, f.payload) :: framePairs ft := by
  simp [framePairs]

/-- The decoder loop drains every complete leading frame, dispatches them in
order, and rests on the leftover bytes. -/
theorem decodeGo_drain {trim : List Nat → List Nat} {handler : Nat → List Nat → Bool}
    {leftover : List Nat} (hlo : LeftoverOK trim handler leftover) :
    ∀ (fs : List Frame) (c : ConnState) (fuel : Nat),
      (c.state = .waitingForHeader ∨ c.state = .payloadSuccessfulRead) →
      c.inBuffer = framesBytes fs ++ leftover →
      (∀ f ∈ fs, ValidFrame trim handler f) →
      c.inBuffer.length < fuel →
      ∃ c1, decodeGo trim handler fuel c = some (c1, framePairs fs) ∧
        Resting trim c1 leftover := by
  intro fs
  induction fs with
  | nil =>
    intro c fuel hstate hbuf _ hfuel
    have hbuf2 : c.inBuffer = leftover := by simpa [framesBytes] using hbuf
    cases fuel with
    | zero => omega
    | succ fuel =>
      rw [decodeGo_succ, processStates_header_entry hstate]
      by_cases hshort : leftover.length < HEADER_SIZE
      · rw [decodeHeader_waiting (by rw [hbuf2]; exact hshort)]
        refine ⟨{ c with state := .waitingForHeader }, ?_, ?_⟩
        · simp [framePairs]
        · exact ⟨hbuf2, Or.inl ⟨rfl, hshort⟩⟩
      · rcases hlo with hnil | ⟨g, hgv, ⟨t, hpre⟩, hplen⟩
        · rw [hnil] at hshort
          simp [HEADER_SIZE] at hshort
        · have h16 : HEADER_SIZE ≤ leftover.length := by omega
          have htk : leftover.take HEADER_SIZE = g.header.take HEADER_SIZE := by
            have e1 : g.bytes.take HEADER_SIZE = leftover.take HEADER_SIZE := by
              rw [← hpre, take_append_left h16]
            have e2 : g.bytes.take HEADER_SIZE = g.header.take HEADER_SIZE := by
              rw [Frame.bytes, take_append_left (by rw [hgv.1])]
            rw [← e1, e2]
          rw [decodeHeader_of_take16 hgv (by rw [hbuf2]; exact h16)
              (by rw [hbuf2]; exact htk)]
          dsimp only
          rw [if_pos rfl]
          have hwait : leftover.length < g.payload.length + HEADER_SIZE := by
            have := Frame.bytes_length hgv
            omega
          rw [decodePayload_waiting (by simpa [hbuf2] using hwait)]
          refine ⟨{ c with
            messageNumber := g.msgNum,
            payloadSize := g.payload.length,
            state := .waitingForPayload }, ?_, ?_⟩
          · simp [framePairs]
          · refine ⟨hbuf2, Or.inr ⟨rfl, h16, ?_, ?_, ?_, ?_, ?_⟩⟩
            · have h1 : getUsizeWith trim leftover 8 11 = getUsizeWith trim g.header 8 11 :=
                getUsizeWith_eq_of_take_eq htk (by simp [HEADER_SIZE])
              rw [h1]
              exact hgv.2.2.1
            · have h1 : getUsizeWith trim leftover 11 16 = getUsizeWith trim g.header 11 16 :=
                getUsizeWith_eq_of_take_eq htk (by simp [HEADER_SIZE])
              rw [h1]
              exact hgv.2.2.2.1
            · exact hgv.2.2.2.2.1
            · exact hgv.2.2.2.2.2.1
            · exact hwait
  | cons f ft ih =>
    intro c fuel hstate hbuf hval hfuel
    have hv : ValidFrame trim handler f := hval f (List.mem_cons_self f ft)
    have hsplit : c.inBuffer = f.bytes ++ (framesBytes ft ++ leftover) := by
      rw [hbuf, framesBytes_cons, List.append_assoc]
    cases fuel with
    | zero => omega
    | succ fuel =>
      rw [decodeGo_succ, processStates_header_entry hstate]
      rw [decodeHeader_frame hv hsplit]
      dsimp only
      rw [if_pos rfl]
      rw [decodePayload_frame (c := { c with
            messageNumber := f.msgNum,
            payloadSize := f.payload.length,
            state := .headerSuccessfulRead })
          hv.1 hv.2.2.2.2.2.2 hsplit rfl rfl]
      dsimp only
      rw [if_pos rfl]
      have hlenb : f.bytes.length = HEADER_SIZE + f.payload.length :=
        Frame.bytes_length hv
      have hclen := congrArg List.length hsplit
      simp only [List.length_append] at hclen
      obtain ⟨c3, hrec, hrest⟩ := ih { c with
          inBuffer := framesBytes ft ++ leftover,
          messageNumber := f.msgNum,
          payloadSize := f.payload.length,
          state := .payloadSuccessfulRead } fuel (Or.inr rfl) rfl
        (fun x hx => hval x (List.mem_cons_of_mem f hx))
        (by
          simp only [List.length_append, HEADER_SIZE] at hlenb hclen ⊢
          omega)
      rw [hrec]
      refine ⟨c3, ?_, hrest⟩
      rw [framePairs_cons]
      rfl

theorem encodeBytes_eq (p : List Nat) (m : Nat) :
    encodeBytes p m = headerBytes p m ++ p := by
  simp [encodeBytes, headerBytes, List.append_assoc]

theorem natDigits_length_le {n k : Nat} (hk : 1 ≤ k) (h : n < 10 ^ k) :
    (natDigits n).length ≤ k := by
  induction k generalizing n with
  | zero => omega
  | succ k ih =>
    rw [natDigits_eq]
    by_cases h10 : n < 10
    · simp only [h10, if_true, List.length_cons, List.length_nil]
      omega
    · have hk1 : 1 ≤ k := by
        by_contra hc
        have hk0 : k = 0 := by omega
        rw [hk0] at h
        norm_num at h
        omega
      have hdiv : n / 10 < 10 ^ k := by
        have hpow : 10 ^ (k + 1) = 10 ^ k * 10 := by ring
        rw [hpow] at h
        omega
      have hlen := ih hk1 hdiv
      simp only [h10, if_false, List.length_append, List.length_cons, List.length_nil]
      omega

theorem natDigits_length_lt10 {n : Nat} (h : n < 10) : (natDigits n).length = 1 := by
  rw [natDigits_eq]
  simp [h]

theorem slice_append_at {s w : Nat} (pre field post : List Nat)
    (hs : pre.length = s) (hw : field.length = w) :
    ((pre ++ field ++ post).drop s).take w = field := by
  subst hs
  subst hw
  rw [List.append_assoc, List.drop_left, take_append_left (le_refl _), List.take_length]

theorem headerBytes_length {p : List Nat} {m : Nat}
    (hm3 : (natDigits m).length ≤ 3) (hp5 : (natDigits p.length).length ≤ 5) :
    (headerBytes p m).length = HEADER_SIZE := by
  rw [headerBytes, List.length_append, List.length_append,
    padField_length hm3, padField_length hp5]
  rfl

theorem getUsize_headerBytes_mn (trim : List Nat → List Nat) (p : List Nat) (m : Nat)
    (hm3 : (natDigits m).length ≤ 3) :
    getUsizeWith trim (headerBytes p m) 8 11 =
      parseUsizeBytes (trim (padField 3 (natDigits m))) := by
  have hslice : ((headerBytes p m).drop 8).take 3 = padField 3 (natDigits m) := by
    rw [headerBytes]
    exact slice_append_at _ _ _ rfl (padField_length hm3)
  unfold getUsizeWith
  show parseUsizeBytes (trim (((headerBytes p m).drop 8).take 3)) = _
  rw [hslice]

theorem getUsize_headerBytes_ps (trim : List Nat → List Nat) (p : List Nat) (m : Nat)
    (hm3 : (natDigits m).length ≤ 3) (hp5 : (natDigits p.length).length ≤ 5) :
    getUsizeWith trim (headerBytes p m) 11 16 =
      parseUsizeBytes (trim (padField 5 (natDigits p.length))) := by
  have hform : headerBytes p m =
      (MAGIC ++ padField 3 (natDigits m)) ++ padField 5 (natDigits p.length) ++ [] := by
    simp [headerBytes]
  have hpre : (MAGIC ++ padField 3 (natDigits m)).length = 11 := by
    rw [List.length_append, padField_length hm3]
    rfl
  have hslice : ((headerBytes p m).drop 11).take 5 = padField 5 (natDigits p.length) := by
    rw [hform]
    exact slice_append_at _ _ _ hpre (padField_length hp5)
  unfold getUsizeWith
  show parseUsizeBytes (trim (((headerBytes p m).drop 11).take 5)) = _
  rw [hslice]

theorem take16_encodeBytes {p : List Nat} {m : Nat}
    (hm3 : (natDigits m).length ≤ 3) (hp5 : (natDigits p.length).length ≤ 5) :
    (encodeBytes p m).take HEADER_SIZE = (headerBytes p m).take HEADER_SIZE := by
  rw [encodeBytes_eq]
  exact take_append_left (by rw [headerBytes_length hm3 hp5])

/-- Under the frontend trim (`trim_end`), the bytes produced by `encode`
form a valid frame for its message number and payload. -/
theorem encode_frame_valid {handler : Nat → List Nat → Bool} {m : Nat} {p : List Nat}
    (hm3 : (natDigits m).length ≤ 3) (hp5 : (natDigits p.length).length ≤ 5)
    (h1 : 1 ≤ p.length) (h2 : p.length ≤ MAX_PAYLOAD) (hh : handler m p = true) :
    ValidFrame trimEndBytes handler ⟨m, p, headerBytes p m⟩ := by
  refine ⟨headerBytes_length hm3 hp5, ?_, ?_, ?_, h1, h2, hh⟩
  · rw [headerBytes, List.append_assoc, take_append_left (by decide)]
    rfl
  · rw [getUsize_headerBytes_mn trimEndBytes p m hm3]
    exact parse_trimEnd_padRight hm3
  · rw [getUsize_headerBytes_ps trimEndBytes p m hm3 hp5]
    exact parse_trimEnd_padRight hp5

theorem decodeHeader_none_of_mn {trim : List Nat → List Nat} {c : ConnState}
    (hlen : ¬ c.inBuffer.length < HEADER_SIZE)
    (hmagic : c.inBuffer.take 8 = MAGIC)
    (hmn : getUsizeWith trim c.inBuffer 8 11 = none) :
    decodeHeader trim c = none := by
  unfold decodeHeader
  rw [if_neg hlen, if_neg (by rw [hmagic]; exact fun hcon => hcon rfl), hmn]

/-- C1, amended.  For every catalog message number (0..5) and every payload
the encoder can actually emit (1..1008 bytes) whose dispatch arm succeeds,
the frontend decoder consumes the encoded bytes as exactly one frame,
dispatches the pair (m, p) and leaves the inbound buffer empty.  The backend
decoder (`trim_start`), by contrast, rejects these same bytes as a framing
error, because the message-number field carries trailing padding. -/
theorem claim_C1_roundtrip (handler : Nat → List Nat → Bool) (m : Nat) (p : List Nat)
    (hm : m ≤ 5) (hlow : 1 ≤ p.length) (hhigh : p.length ≤ 1008)
    (hh : handler m p = true) :
    Connection.encode p m = EncodeResult.ok (encodeBytes p m) ∧
    (∃ c1, Connection.decode trimEndBytes handler
        { initConn with inBuffer := encodeBytes p m } = some (c1, [(m, p)]) ∧
        c1.inBuffer = []) ∧
    Connection.decode trimStartBytes handler
        { initConn with inBuffer := encodeBytes p m } = none := by
  have hm3 : (natDigits m).length ≤ 3 := by
    rw [natDigits_length_lt10 (by omega)]
    omega
  have hmlt : (natDigits m).length < 3 := by
    rw [natDigits_length_lt10 (by omega)]
    omega
  have hp5 : (natDigits p.length).length ≤ 5 :=
    natDigits_length_le (by omega) (by norm_num; omega)
  have h2 : p.length ≤ MAX_PAYLOAD := by
    simp only [MAX_PAYLOAD]
    omega
  have hv : ValidFrame trimEndBytes handler ⟨m, p, headerBytes p m⟩ :=
    encode_frame_valid hm3 hp5 hlow h2 hh
  refine ⟨?_, ?_, ?_⟩
  · unfold Connection.encode
    rw [if_neg (by simp only [MAX_PAYLOAD]; omega),
        if_neg (by simp only [MAX_PAYLOAD, HEADER_SIZE]; omega)]
  · have hbuf : ({ initConn with inBuffer := encodeBytes p m } : ConnState).inBuffer =
        framesBytes [⟨m, p, headerBytes p m⟩] ++ [] := by
      show encodeBytes p m = framesBytes [⟨m, p, headerBytes p m⟩] ++ []
      rw [encodeBytes_eq]
      simp [framesBytes, Frame.bytes]
    obtain ⟨c1, hdec, hrest⟩ := decodeGo_drain (Or.inl rfl)
      [⟨m, p, headerBytes p m⟩] { initConn with inBuffer := encodeBytes p m }
      ((encodeBytes p m).length + 1) (Or.inl rfl) hbuf
      (by
        intro x hx
        rw [List.mem_singleton] at hx
        rw [hx]
        exact hv)
      (by
        show (encodeBytes p m).length < (encodeBytes p m).length + 1
        omega)
    refine ⟨c1, ?_, hrest.1⟩
    rw [Connection.decode]
    rw [hdec]
    rfl
  · rw [Connection.decode]
    have hlen : (encodeBytes p m).length = HEADER_SIZE + p.length := by
      rw [encodeBytes_eq, List.length_append, headerBytes_length hm3 hp5]
    obtain ⟨fuel, hfuel⟩ : ∃ fuel,
        ({ initConn with inBuffer := encodeBytes p m } : ConnState).inBuffer.length + 1 =
          fuel + 1 := ⟨_, rfl⟩
    rw [hfuel, decodeGo_succ, processStates_header_entry (Or.inl rfl)]
    have hnone : decodeHeader trimStartBytes
        { initConn with inBuffer := encodeBytes p m } = none := by
      apply decodeHeader_none_of_mn
      · show ¬ (encodeBytes p m).length < HEADER_SIZE
        rw [hlen]
        omega
      · show (encodeBytes p m).take 8 = MAGIC
        rw [encodeBytes_eq, take_append_left
            (by rw [headerBytes_length hm3 hp5]; simp [HEADER_SIZE])]
        rw [headerBytes, List.append_assoc, take_append_left (by decide)]
        rfl
      · show getUsizeWith trimStartBytes (encodeBytes p m) 8 11 = none
        rw [getUsizeWith_eq_of_take_eq (take16_encodeBytes hm3 hp5)
            (by simp [HEADER_SIZE])]
        rw [getUsize_headerBytes_mn trimStartBytes p m hm3]
        exact parse_trimStart_padRight hmlt
    rw [hnone]

/-- Witness for `claim_C1_roundtrip` at m = 2, p = "a", with a dispatch
oracle that accepts everything. -/
theorem claim_C1_roundtrip_witness :
    Connection.encode [97] 2 = EncodeResult.ok (encodeBytes [97] 2) ∧
    (∃ c1, Connection.decode trimEndBytes (fun _ _ => true)
        { initConn with inBuffer := encodeBytes [97] 2 } = some (c1, [(2, [97])]) ∧
        c1.inBuffer = []) ∧
    Connection.decode trimStartBytes (fun _ _ => true)
        { initConn with inBuffer := encodeBytes [97] 2 } = none :=
  claim_C1_roundtrip (fun _ _ => true) 2 [97] (by decide) (by decide) (by decide) rfl

/-! ## C6: streaming independence of the backend decoder -/

theorem framesBytes_append (a b : List Frame) :
    framesBytes (a ++ b) = framesBytes a ++ framesBytes b := by
  simp [framesBytes]

theorem framePairs_append (a b : List Frame) :
    framePairs (a ++ b) = framePairs a ++ framePairs b := by
  simp [framePairs]

theorem split_left {P t A B : List Nat} (h : P ++ t = A ++ B)
    (hlen : P.length ≤ A.length) : ∃ u, P ++ u = A := by
  refine ⟨A.drop P.length, ?_⟩
  have h1 : P = A.take P.length := by
    have e1 : (P ++ t).take P.length = P := by
      rw [take_append_left (le_refl _), List.take_length]
    have e2 : (A ++ B).take P.length = A.take P.length := take_append_left hlen
    have e3 : (P ++ t).take P.length = (A ++ B).take P.length := by rw [h]
    rw [e1, e2] at e3
    exact e3
  calc P ++ A.drop P.length
      = A.take P.length ++ A.drop P.length := by rw [← h1]
    _ = A := List.take_append_drop _ _

theorem split_right {P t A B : List Nat} (h : P ++ t = A ++ B)
    (hlen : A.length ≤ P.length) :
    P = A ++ P.drop A.length ∧ P.drop A.length ++ t = B := by
  have h1 : A = P.take A.length := by
    have e1 : (A ++ B).take A.length = A := by
      rw [take_append_left (le_refl _), List.take_length]
    have e2 : (P ++ t).take A.length = P.take A.length := take_append_left hlen
    have e3 : (A ++ B).take A.length = (P ++ t).take A.length := by rw [h]
    rw [e1, e2] at e3
    exact e3
  have hP : P = A ++ P.drop A.length := by
    conv_lhs => rw [← List.take_append_drop A.length P]
    rw [← h1]
  refine ⟨hP, ?_⟩
  have h2 : A ++ (P.drop A.length ++ t) = A ++ B := by
    rw [← List.append_assoc, ← hP, h]
  exact List.append_cancel_left h2

/-- Any prefix of a frame stream splits into whole leading frames plus a
strict prefix of the next frame (or nothing at the end of the stream). -/
theorem stream_split {trim : List Nat → List Nat} {handler : Nat → List Nat → Bool} :
    ∀ (rem : List Frame) (P t : List Nat),
      P ++ t = framesBytes rem →
      (∀ f ∈ rem, ValidFrame trim handler f) →
      ∃ mid rem2 leftover2,
        rem = mid ++ rem2 ∧
        P = framesBytes mid ++ leftover2 ∧
        ((rem2 = [] ∧ leftover2 = []) ∨
         (∃ g rem3 u, rem2 = g :: rem3 ∧ leftover2 ++ u = g.bytes ∧
           leftover2.length < g.bytes.length)) := by
  intro rem
  induction rem with
  | nil =>
    intro P t h _
    have hP : P = [] := by
      have hl := congrArg List.length h
      simp [framesBytes] at hl
      exact hl.1
    exact ⟨[], [], [], rfl, by simp [framesBytes, hP], Or.inl ⟨rfl, rfl⟩⟩
  | cons g rem2 ih =>
    intro P t h hval
    rw [framesBytes_cons] at h
    by_cases hPlen : P.length < g.bytes.length
    · obtain ⟨u, hu⟩ := split_left h (by omega)
      exact ⟨[], g :: rem2, P, rfl, by simp [framesBytes],
        Or.inr ⟨g, rem2, u, rfl, hu, hPlen⟩⟩
    · obtain ⟨hP, hrest⟩ := split_right h (by omega)
      obtain ⟨mid, rem3, leftover2, hr, hPd, hcase⟩ :=
        ih (P.drop g.bytes.length) t hrest
          (fun f hf => hval f (List.mem_cons_of_mem g hf))
      refine ⟨g :: mid, rem3, leftover2, by rw [List.cons_append, hr], ?_, hcase⟩
      rw [framesBytes_cons, List.append_assoc, ← hPd]
      exact hP

/-- Decoding from mid-frame (`WaitingForPayload` with the pending frame's
header already parsed) completes that frame and drains the rest. -/
theorem decodeGo_drain_mid {trim : List Nat → List Nat} {handler : Nat → List Nat → Bool}
    {leftover : List Nat} (hlo : LeftoverOK trim handler leftover)
    (g : Frame) (gt : List Frame) (c : ConnState) (fuel : Nat)
    (hstate : c.state = .waitingForPayload)
    (hbuf : c.inBuffer = g.bytes ++ (framesBytes gt ++ leftover))
    (hgv : ValidFrame trim handler g)
    (hval : ∀ f ∈ gt, ValidFrame trim handler f)
    (hmn : c.messageNumber = g.msgNum)
    (hps : c.payloadSize = g.payload.length)
    (hfuel : c.inBuffer.length < fuel) :
    ∃ c1, decodeGo trim handler fuel c = some (c1, framePairs (g :: gt)) ∧
      Resting trim c1 leftover := by
  cases fuel with
  | zero => omega
  | succ fuel =>
    rw [decodeGo_succ, processStates_payload_entry hstate]
    rw [decodePayload_frame hgv.1 hgv.2.2.2.2.2.2 hbuf hmn hps]
    dsimp only
    rw [if_pos rfl]
    have hlenb : g.bytes.length = HEADER_SIZE + g.payload.length :=
      Frame.bytes_length hgv
    have hclen := congrArg List.length hbuf
    simp only [List.length_append] at hclen
    obtain ⟨c3, hrec, hrest⟩ := decodeGo_drain hlo gt { c with
        inBuffer := framesBytes gt ++ leftover,
        state := .payloadSuccessfulRead } fuel (Or.inr rfl) rfl hval
      (by
        show (framesBytes gt ++ leftover).length < fuel
        simp only [List.length_append, HEADER_SIZE] at hlenb hclen ⊢
        omega)
    rw [hrec]
    refine ⟨c3, ?_, hrest⟩
    rw [framePairs_cons]
    rfl

theorem resting_chunkinv {trim : List Nat → List Nat} {handler : Nat → List Nat → Bool}
    {c2 : ConnState} {leftover2 : List Nat} {rem2 : List Frame}
    (hres : Resting trim c2 leftover2)
    (hcase : (rem2 = [] ∧ leftover2 = []) ∨
      (∃ g rem3 u, rem2 = g :: rem3 ∧ leftover2 ++ u = g.bytes ∧
        leftover2.length < g.bytes.length))
    (hval : ∀ f ∈ rem2, ValidFrame trim handler f) :
    ChunkInv c2 rem2 := by
  obtain ⟨hbuf, hdis⟩ := hres
  rcases hdis with ⟨hst, hsh⟩ | ⟨hst, h16, hmn, hps, -, -, -⟩
  · exact Or.inl ⟨hst, by rw [hbuf]; exact hsh⟩
  · rcases hcase with ⟨-, hnil⟩ | ⟨g, rem3, u, hr2, hpre, hltg⟩
    · rw [hnil] at h16
      simp [HEADER_SIZE] at h16
    · have hgv : ValidFrame trim handler g := by
        apply hval
        rw [hr2]
        exact List.mem_cons_self g rem3
      have htk : leftover2.take HEADER_SIZE = g.header.take HEADER_SIZE := by
        have e1 : g.bytes.take HEADER_SIZE = leftover2.take HEADER_SIZE := by
          rw [← hpre, take_append_left h16]
        have e2 : g.bytes.take HEADER_SIZE = g.header.take HEADER_SIZE := by
          rw [Frame.bytes, take_append_left (by rw [hgv.1])]
        rw [← e1, e2]
      have hmn2 : c2.messageNumber = g.msgNum := by
        have h1 : getUsizeWith trim leftover2 8 11 = getUsizeWith trim g.header 8 11 :=
          getUsizeWith_eq_of_take_eq htk (by simp [HEADER_SIZE])
        rw [h1, hgv.2.2.1] at hmn
        exact (Option.some.inj hmn).symm
      have hps2 : c2.payloadSize = g.payload.length := by
        have h1 : getUsizeWith trim leftover2 11 16 = getUsizeWith trim g.header 11 16 :=
          getUsizeWith_eq_of_take_eq htk (by simp [HEADER_SIZE])
        rw [h1, hgv.2.2.2.1] at hps
        exact (Option.some.inj hps).symm
      exact Or.inr ⟨hst, g, rem3, hr2, by rw [hbuf]; exact h16,
        by rw [hbuf]; exact hltg, hmn2, hps2⟩

/-- Feeding any chunking of the remaining frame stream dispatches exactly the
remaining frames and ends on an empty, compacted buffer. -/
theorem feedChunks_stream {trim : List Nat → List Nat} {handler : Nat → List Nat → Bool} :
    ∀ (chunks : List (List Nat)) (c : ConnState) (rem : List Frame),
      ChunkInv c rem →
      (∀ f ∈ rem, ValidFrame trim handler f) →
      c.inBuffer ++ chunks.flatten = framesBytes rem →
      ∃ cEnd, feedChunks trim handler c chunks = some (cEnd, framePairs rem) ∧
        cEnd.inBuffer = [] ∧ cEnd.state = .waitingForHeader := by
  intro chunks
  induction chunks with
  | nil =>
    intro c rem hinv hval heq
    simp only [List.flatten_nil, List.append_nil] at heq
    rcases hinv with ⟨hst, hsh⟩ | ⟨hst, g, rem2, hremg, h16, hltg, -, -⟩
    · cases rem with
      | nil =>
        refine ⟨c, by simp [feedChunks, framePairs], ?_, hst⟩
        simpa [framesBytes] using heq
      | cons g rem2 =>
        exfalso
        have hgv : ValidFrame trim handler g := hval g (List.mem_cons_self g rem2)
        have hgb := Frame.bytes_length hgv
        have hlen := congrArg List.length heq
        rw [framesBytes_cons] at hlen
        simp only [List.length_append, HEADER_SIZE] at hlen hgb hsh
        have hp1 := hgv.2.2.2.2.1
        omega
    · exfalso
      have hlen := congrArg List.length heq
      rw [hremg, framesBytes_cons] at hlen
      simp only [List.length_append] at hlen
      omega
  | cons chunk chunks' ih =>
    intro c rem hinv hval heq
    rw [List.flatten_cons, ← List.append_assoc] at heq
    obtain ⟨mid, rem2, leftover2, hrem, hb1, hcase⟩ :=
      @stream_split trim handler rem (c.inBuffer ++ chunk) chunks'.flatten heq hval
    have hvalmid : ∀ f ∈ mid, ValidFrame trim handler f :=
      fun f hf => hval f (by rw [hrem]; exact List.mem_append_left _ hf)
    have hvalrem2 : ∀ f ∈ rem2, ValidFrame trim handler f :=
      fun f hf => hval f (by rw [hrem]; exact List.mem_append_right _ hf)
    have hlo2 : LeftoverOK trim handler leftover2 := by
      rcases hcase with ⟨-, hnil⟩ | ⟨g2, rem3, u, hr2, hpre, hlt2⟩
      · exact Or.inl hnil
      · exact Or.inr ⟨g2, hvalrem2 g2 (by rw [hr2]; exact List.mem_cons_self _ _),
          ⟨u, hpre⟩, hlt2⟩
    have heq3 : leftover2 ++ chunks'.flatten = framesBytes rem2 := by
      have e1 : framesBytes mid ++ (leftover2 ++ chunks'.flatten) =
          framesBytes mid ++ framesBytes rem2 := by
        rw [← List.append_assoc, ← hb1, heq, hrem, framesBytes_append]
      exact List.append_cancel_left e1
    rcases hinv with ⟨hst, -⟩ | ⟨hst, g, rem2x, hremg, h16, hltg, hmn, hps⟩
    · -- at a frame boundary: drain the completed frames
      obtain ⟨c2, hdec, hres⟩ := decodeGo_drain hlo2 mid
        { c with inBuffer := c.inBuffer ++ chunk } ((c.inBuffer ++ chunk).length + 1)
        (Or.inl hst) hb1 hvalmid
        (by
          show (c.inBuffer ++ chunk).length < (c.inBuffer ++ chunk).length + 1
          omega)
      obtain ⟨cEnd, hfeed, hbE, hstE⟩ := ih c2 rem2
        (resting_chunkinv hres hcase hvalrem2) hvalrem2 (by rw [hres.1]; exact heq3)
      have hfc : feedChunk trim handler c chunk = some (c2, framePairs mid) := by
        unfold feedChunk Connection.decode
        dsimp only
        exact hdec
      refine ⟨cEnd, ?_, hbE, hstE⟩
      show (match feedChunk trim handler c chunk with
        | none => none
        | some (c1, tr1) =>
          match feedChunks trim handler c1 chunks' with
          | none => none
          | some (c2, tr2) => some (c2, tr1 ++ tr2)) = _
      rw [hfc]
      dsimp only
      rw [hfeed]
      dsimp only
      rw [hrem, framePairs_append]
    · -- mid-frame: g is the pending frame
      have hgv : ValidFrame trim handler g := by
        apply hval
        rw [hremg]
        exact List.mem_cons_self g rem2x
      cases mid with
      | nil =>
        -- the chunk does not complete the pending frame
        have hb1' : c.inBuffer ++ chunk = leftover2 := by
          simpa [framesBytes] using hb1
        rcases hcase with ⟨hr2, -⟩ | ⟨g2, rem3, u, hr2, hpre, hlt2⟩
        · exfalso
          rw [List.nil_append] at hrem
          rw [hr2] at hrem
          rw [hrem] at hremg
          exact absurd hremg (by simp)
        · rw [List.nil_append] at hrem
          rw [← hrem] at hr2
          rw [hremg] at hr2
          have hg2 : g = g2 := (List.cons.inj hr2).1
          subst hg2
          have hgb := Frame.bytes_length hgv
          have hblen : (c.inBuffer ++ chunk).length < c.payloadSize + HEADER_SIZE := by
            rw [hps, hb1']
            simp only [HEADER_SIZE] at hgb ⊢
            omega
          have hfc : feedChunk trim handler c chunk =
              some ({ c with
                inBuffer := c.inBuffer ++ chunk,
                state := .waitingForPayload }, []) := by
            unfold feedChunk Connection.decode
            dsimp only
            rw [decodeGo_succ,
              processStates_payload_entry (c := { c with inBuffer := c.inBuffer ++ chunk }) hst]
            rw [decodePayload_waiting (c := { c with inBuffer := c.inBuffer ++ chunk }) hblen]
            dsimp only
            rw [if_neg (by decide)]
          have hinv2 : ChunkInv { c with
              inBuffer := c.inBuffer ++ chunk,
              state := .waitingForPayload } rem := by
            refine Or.inr ⟨rfl, g, rem2x, hremg, ?_, ?_, hmn, hps⟩
            · show HEADER_SIZE ≤ (c.inBuffer ++ chunk).length
              rw [List.length_append]
              omega
            · show (c.inBuffer ++ chunk).length < g.bytes.length
              rw [hb1']
              exact hlt2
          obtain ⟨cEnd, hfeed, hbE, hstE⟩ := ih _ rem hinv2 hval
            (by
              show (c.inBuffer ++ chunk) ++ chunks'.flatten = framesBytes rem
              exact heq)
          refine ⟨cEnd, ?_, hbE, hstE⟩
          show (match feedChunk trim handler c chunk with
            | none => none
            | some (c1, tr1) =>
              match feedChunks trim handler c1 chunks' with
              | none => none
              | some (c2, tr2) => some (c2, tr1 ++ tr2)) = _
          rw [hfc]
          dsimp only
          rw [hfeed]
          dsimp only
          rw [List.nil_append]
      | cons m0 mid' =>
        -- the chunk completes the pending frame (and possibly more)
        rw [hremg, List.cons_append] at hrem
        have hm0 : g = m0 := (List.cons.inj hrem).1
        subst hm0
        have hrem2x : rem2x = mid' ++ rem2 := (List.cons.inj hrem).2
        obtain ⟨c2, hdec, hres⟩ := decodeGo_drain_mid hlo2 g mid'
          { c with inBuffer := c.inBuffer ++ chunk } ((c.inBuffer ++ chunk).length + 1)
          hst
          (by
            show c.inBuffer ++ chunk = g.bytes ++ (framesBytes mid' ++ leftover2)
            rw [hb1, framesBytes_cons, List.append_assoc])
          hgv
          (fun f hf => hvalmid f (List.mem_cons_of_mem _ hf))
          hmn hps
          (by
            show (c.inBuffer ++ chunk).length < (c.inBuffer ++ chunk).length + 1
            omega)
        obtain ⟨cEnd, hfeed, hbE, hstE⟩ := ih c2 rem2
          (resting_chunkinv hres hcase hvalrem2) hvalrem2 (by rw [hres.1]; exact heq3)
        have hfc : feedChunk trim handler c chunk =
            some (c2, framePairs (g :: mid')) := by
          unfold feedChunk Connection.decode
          dsimp only
          exact hdec
        refine ⟨cEnd, ?_, hbE, hstE⟩
        show (match feedChunk trim handler c chunk with
          | none => none
          | some (c1, tr1) =>
            match feedChunks trim handler c1 chunks' with
            | none => none
            | some (c2, tr2) => some (c2, tr1 ++ tr2)) = _
        rw [hfc]
        dsimp only
        rw [hfeed]
        dsimp only
        rw [hremg, hrem2x]
        rw [show (g :: (mid' ++ rem2) : List Frame) = (g :: mid') ++ rem2 from rfl]
        rw [framePairs_append]

/-- C6.  For any sequence of valid frames and any chunking of their
concatenated bytes, feeding the chunks one at a time (append to the inbound
buffer, then run `decode`) dispatches exactly the same (message number,
payload) sequence as presenting the whole concatenation in a single chunk —
namely the original frame sequence — and each completed frame's suffix is
compacted so that the final buffer is empty. -/
theorem claim_C6_chunking (handler : Nat → List Nat → Bool)
    (frames : List Frame) (chunks : List (List Nat))
    (hval : ∀ f ∈ frames, ValidFrame trimStartBytes handler f)
    (hchunks : chunks.flatten = framesBytes frames) :
    ∃ c1 c2,
      feedChunks trimStartBytes handler initConn chunks = some (c1, framePairs frames) ∧
      feedChunks trimStartBytes handler initConn [framesBytes frames] =
        some (c2, framePairs frames) ∧
      c1.inBuffer = [] ∧ c2.inBuffer = [] := by
  have hinv : ChunkInv initConn frames := Or.inl ⟨rfl, by simp [initConn, HEADER_SIZE]⟩
  obtain ⟨c1, h1, hb1, -⟩ := feedChunks_stream chunks initConn frames hinv hval
    (by
      show [] ++ chunks.flatten = _
      rw [List.nil_append, hchunks])
  obtain ⟨c2, h2, hb2, -⟩ := feedChunks_stream [framesBytes frames] initConn frames hinv
    hval
    (by
      show [] ++ [framesBytes frames].flatten = _
      simp)
  exact ⟨c1, c2, h1, h2, hb1, hb2⟩

/-- Witness for `claim_C6_chunking`: one frame (message number 2, payload "a",
header fields left-padded as the backend parser accepts them), delivered in
two chunks split mid-header. -/
theorem claim_C6_chunking_witness :
    ∃ c1 c2,
      feedChunks trimStartBytes (fun _ _ => true) initConn
          [[82, 117, 115, 116, 67], [104, 97, 116, 32, 32, 50, 32, 32, 32, 32, 49, 97]] =
        some (c1, framePairs
          [⟨2, [97], [82, 117, 115, 116, 67, 104, 97, 116, 32, 32, 50, 32, 32, 32, 32, 49]⟩]) ∧
      feedChunks trimStartBytes (fun _ _ => true) initConn
          [framesBytes
            [⟨2, [97], [82, 117, 115, 116, 67, 104, 97, 116, 32, 32, 50, 32, 32, 32, 32, 49]⟩]] =
        some (c2, framePairs
          [⟨2, [97], [82, 117, 115, 116, 67, 104, 97, 116, 32, 32, 50, 32, 32, 32, 32, 49]⟩]) ∧
      c1.inBuffer = [] ∧ c2.inBuffer = [] := by
  apply claim_C6_chunking (fun _ _ => true)
    [⟨2, [97], [82, 117, 115, 116, 67, 104, 97, 116, 32, 32, 50, 32, 32, 32, 32, 49]⟩]
  · intro f hf
    rw [List.mem_singleton] at hf
    subst hf
    refine ⟨?_, ?_, ?_, ?_, ?_, ?_, ?_⟩ <;> decide
  · rfl

/-- C1, counterexample.  On the exact bytes of encode("a", 2) the backend
decoder (`Connection::decode` in `backend/src/net/connection.rs`, whose
`get_usize` uses `trim_start`) reports a framing error (`none`, the
connection is closed) instead of dispatching the frame (2, "a"), even with
a dispatch oracle that accepts every payload. -/
theorem claim_C1_counterexample :
    Connection.decode trimStartBytes (fun _ _ => true)
      { initConn with inBuffer := encodeBytes [97] 2 } = none ∧
    encodeBytes [97] 2 = MAGIC ++ [50, 32, 32] ++ [49, 32, 32, 32, 32] ++ [97] := by
  constructor
  · rfl
  · rfl

/-- C4.  On a connection that never sent Login (`user_name = none`),
processing an inbound PublishGlobalChatMessage or PublishPrivateChatMessage
leaves the entire connection state unchanged (user name and outbound queue),
enqueues no reply, and emits no event on the bus; the handler returns
normally — there is no failure channel — so the decode step reports success
and the connection stays open. -/
theorem claim_C4_unauthenticated_publish_dropped (c : ServerConnection)
    (g : PublishGlobalChatMessage) (p : PublishPrivateChatMessage)
    (h : c.user_name = none) :
    g.process c = (c, []) ∧ p.process c = (c, []) := by
  unfold PublishGlobalChatMessage.process PublishPrivateChatMessage.process
  rw [h]
  exact ⟨rfl, rfl⟩

/-- Witness for `claim_C4_unauthenticated_publish_dropped`. -/
theorem claim_C4_unauthenticated_publish_dropped_witness :
    PublishGlobalChatMessage.process ⟨"x"⟩ ⟨none, []⟩ = (⟨none, []⟩, []) ∧
    PublishPrivateChatMessage.process ⟨"b", "y"⟩ ⟨none, []⟩ = (⟨none, []⟩, []) :=
  claim_C4_unauthenticated_publish_dropped ⟨none, []⟩ ⟨"x"⟩ ⟨"b", "y"⟩ rfl

/-- C5.  Draining a private-chat event enqueues the
`PrivateChatMessage{from_user_name, message}` frame on exactly those
connections whose user name is `Some` of the event's target: every match
(including several connections sharing the target name) receives one copy
appended to its queue, and every other connection — different name or not
logged in — is left completely unchanged. -/
theorem claim_C5_private_event_routing (ev : PrivateChatMessageEvent)
    (connections : List (Nat × ServerConnection)) :
    (drainPrivateChatMessageEvent ev connections).length = connections.length ∧
    ∀ i (h1 : i < connections.length)
      (h2 : i < (drainPrivateChatMessageEvent ev connections).length),
      ((drainPrivateChatMessageEvent ev connections).get ⟨i, h2⟩).1 =
        (connections.get ⟨i, h1⟩).1 ∧
      (((connections.get ⟨i, h1⟩).2.user_name = some ev.to_user_name →
        ((drainPrivateChatMessageEvent ev connections).get ⟨i, h2⟩).2.messageQueue =
          (connections.get ⟨i, h1⟩).2.messageQueue ++
            [WireMessage.privateChat ⟨ev.from_user_name, ev.message⟩] ∧
        ((drainPrivateChatMessageEvent ev connections).get ⟨i, h2⟩).2.user_name =
          (connections.get ⟨i, h1⟩).2.user_name) ∧
       ((connections.get ⟨i, h1⟩).2.user_name ≠ some ev.to_user_name →
        (drainPrivateChatMessageEvent ev connections).get ⟨i, h2⟩ =
          connections.get ⟨i, h1⟩)) := by
  refine ⟨by simp [drainPrivateChatMessageEvent], ?_⟩
  intro i h1 h2
  have hget : (drainPrivateChatMessageEvent ev connections).get ⟨i, h2⟩ =
      (fun tc : Nat × ServerConnection =>
        match tc.2.user_name with
        | some user_name =>
          if user_name = ev.to_user_name then
            (tc.1, tc.2.send_message (.privateChat ⟨ev.from_user_name, ev.message⟩))
          else tc
        | none => tc) (connections.get ⟨i, h1⟩) := by
    simp [drainPrivateChatMessageEvent]
  rw [hget]
  dsimp only
  rcases hu : (connections.get ⟨i, h1⟩).2.user_name with _ | u
  · dsimp only
    exact ⟨rfl, fun hc => absurd hc (by simp), fun _ => rfl⟩
  · dsimp only
    by_cases he : u = ev.to_user_name
    · rw [if_pos he]
      exact ⟨rfl, fun _ => ⟨rfl, hu⟩, fun hc => absurd (by rw [he]) hc⟩
    · rw [if_neg he]
      exact ⟨rfl, fun hc => absurd (Option.some.inj hc) he, fun _ => rfl⟩

/-- Witness for `claim_C5_private_event_routing`: two connections named "b"
(both receive), one named "c" and one not logged in (both untouched). -/
theorem claim_C5_private_event_routing_witness :
    (drainPrivateChatMessageEvent ⟨"a", "b", "hi"⟩
      [(2, ⟨some "b", []⟩), (3, ⟨some "b", []⟩), (4, ⟨some "c", []⟩),
       (5, ⟨none, []⟩)]).length = 4 ∧
    ((drainPrivateChatMessageEvent ⟨"a", "b", "hi"⟩
      [(2, ⟨some "b", []⟩), (3, ⟨some "b", []⟩), (4, ⟨some "c", []⟩),
       (5, ⟨none, []⟩)]).get ⟨1, by decide⟩).1 =
      (([(2, ⟨some "b", []⟩), (3, ⟨some "b", []⟩), (4, ⟨some "c", []⟩),
       (5, (⟨none, []⟩ : ServerConnection))] :
        List (Nat × ServerConnection)).get ⟨1, by decide⟩).1 := by
  have h := claim_C5_private_event_routing ⟨"a", "b", "hi"⟩
    [(2, ⟨some "b", []⟩), (3, ⟨some "b", []⟩), (4, ⟨some "c", []⟩), (5, ⟨none, []⟩)]
  exact ⟨h.1, (h.2 1 (by decide) (by decide)).1⟩

/-- C9.  Draining a `GlobalChatMessage` enqueues a copy on every connection
in the token map with no filtering: the token and user name of each entry
are untouched and each queue — including those of connections whose
`user_name` is `none` — grows by exactly that pre-encoded message. -/
theorem claim_C9_global_broadcast_unfiltered (g : GlobalChatMessage)
    (connections : List (Nat × ServerConnection)) :
    (drainGlobalChatMessage g connections).length = connections.length ∧
    ∀ i (h1 : i < connections.length)
      (h2 : i < (drainGlobalChatMessage g connections).length),
      ((drainGlobalChatMessage g connections).get ⟨i, h2⟩).1 =
        (connections.get ⟨i, h1⟩).1 ∧
      ((drainGlobalChatMessage g connections).get ⟨i, h2⟩).2.user_name =
        (connections.get ⟨i, h1⟩).2.user_name ∧
      ((drainGlobalChatMessage g connections).get ⟨i, h2⟩).2.messageQueue =
        (connections.get ⟨i, h1⟩).2.messageQueue ++ [WireMessage.globalChat g] := by
  refine ⟨by simp [drainGlobalChatMessage], ?_⟩
  intro i h1 h2
  have hget : (drainGlobalChatMessage g connections).get ⟨i, h2⟩ =
      ((connections.get ⟨i, h1⟩).1,
        (connections.get ⟨i, h1⟩).2.send_message (.globalChat g)) := by
    simp [drainGlobalChatMessage]
  rw [hget]
  exact ⟨rfl, rfl, rfl⟩

/-- Witness for `claim_C9_global_broadcast_unfiltered`: a logged-in and a
never-logged-in connection both receive the broadcast. -/
theorem claim_C9_global_broadcast_unfiltered_witness :
    (drainGlobalChatMessage ⟨"a", "hi"⟩
      [(2, ⟨some "a", []⟩), (3, ⟨none, []⟩)]).length = 2 ∧
    ((drainGlobalChatMessage ⟨"a", "hi"⟩
      [(2, ⟨some "a", []⟩), (3, ⟨none, []⟩)]).get ⟨1, by decide⟩).2.messageQueue =
      [WireMessage.globalChat ⟨"a", "hi"⟩] := by
  have h := claim_C9_global_broadcast_unfiltered ⟨"a", "hi"⟩
    [(2, ⟨some "a", []⟩), (3, ⟨none, []⟩)]
  exact ⟨h.1, (h.2 1 (by decide) (by decide)).2.2⟩

/-- C8.  `ServerStop::stop()` sets every registered thread's shared
`should_stop` flag; and once a thread's flag is set, its next loop
iteration returns at the flag check — right after a successful poll and
before any event is processed — so no further poll event is ever processed
(an iteration whose poll fails processes no events either and just
retries). -/
theorem claim_C8_stop_terminates (flags : List Bool) (i : Nat)
    (h : i < (ServerStop.stop flags).length)
    (events : List WorkerEvent) (connections : List (Nat × ServerConnection)) :
    (ServerStop.stop flags).get ⟨i, h⟩ = true ∧
    workerIteration true (.ok events) connections = (.exited, connections, []) ∧
    workerIteration true .err connections = (.continued, connections, []) := by
  refine ⟨?_, rfl, rfl⟩
  simp [ServerStop.stop]

/-- Witness for `claim_C8_stop_terminates`. -/
theorem claim_C8_stop_terminates_witness :
    (ServerStop.stop [false, false]).get ⟨1, by decide⟩ = true ∧
    workerIteration true (.ok [WorkerEvent.wakerGlobal ⟨"a", "hi"⟩]) [] =
      (.exited, [], []) ∧
    workerIteration true .err ([] : List (Nat × ServerConnection)) =
      (.continued, [], []) :=
  claim_C8_stop_terminates [false, false] 1 (by decide)
    [WorkerEvent.wakerGlobal ⟨"a", "hi"⟩] []

theorem sendPrep_ret_readable {c : FrontendConnection} {close : Bool}
    {c1 : FrontendConnection} {regs : List RegAction}
    (h : FrontendConnection.sendPrep c = .ret close c1 regs)
    (hmem : RegAction.regReadable ∈ regs) :
    c.send_interest = true ∧ c1.send_interest = false ∧
    c1.message_queue = [] ∧ c1.out_buffer = [] := by
  unfold FrontendConnection.sendPrep at h
  split at h
  · next hbuf =>
    split at h
    · next hq =>
      split at h
      · next hflag =>
        injection h with h1 h2 h3
        refine ⟨hflag, ?_, ?_, ?_⟩
        · rw [← h2]
        · rw [← h2]
          exact hq
        · rw [← h2]
          exact hbuf
      · injection h with h1 h2 h3
        rw [← h3] at hmem
        exact absurd hmem (by decide)
    · split at h
      · injection h with h1 h2 h3
        rw [← h3] at hmem
        exact absurd hmem (by decide)
      · exact absurd h (by simp)
      · exact absurd h (by simp)
  · exact absurd h (by simp)

theorem sendPrep_go_interest {c c1 : FrontendConnection}
    (h : FrontendConnection.sendPrep c = .go c1) :
    c1.send_interest = c.send_interest := by
  unfold FrontendConnection.sendPrep at h
  split at h
  · split at h
    · split at h
      · exact absurd h (by simp)
      · exact absurd h (by simp)
    · split at h
      · exact absurd h (by simp)
      · exact absurd h (by simp)
      · injection h with h1
        rw [← h1]
  · injection h with h1
    rw [← h1]

/-- When the frontend `send` performs a read-only reregistration, write
interest was armed on entry, and it returns with the flag cleared, the
queue empty and the buffer drained. -/
theorem fsend_readable_spec :
    ∀ (script : List WriteRes) (c : FrontendConnection) (close : Bool)
      (c2 : FrontendConnection) (regs : List RegAction) (rest : List WriteRes),
      FrontendConnection.send c script = .res close c2 regs rest →
      RegAction.regReadable ∈ regs →
      c.send_interest = true ∧ c2.send_interest = false ∧
      c2.message_queue = [] ∧ c2.out_buffer = [] := by
  intro script
  induction script with
  | nil =>
    intro c close c2 regs rest h hmem
    rw [FrontendConnection.send] at h
    split at h
    · next hprep =>
      injection h with h1 h2 h3 h4
      rw [← h3] at hmem
      rw [h2] at hprep
      exact sendPrep_ret_readable hprep hmem
    · exact absurd h (by simp)
    · next c1 hprep =>
      split at h
      · injection h with h1 h2 h3 h4
        rw [← h3] at hmem
        exact absurd hmem (by decide)
      · injection h with h1 h2 h3 h4
        rw [← h3] at hmem
        exact absurd hmem (by decide)
  | cons r rest' ih =>
    intro c close c2 regs rest h hmem
    rw [FrontendConnection.send] at h
    split at h
    · next hprep =>
      injection h with h1 h2 h3 h4
      rw [← h3] at hmem
      rw [h2] at hprep
      exact sendPrep_ret_readable hprep hmem
    · exact absurd h (by simp)
    · next c1 hprep =>
      have hint := sendPrep_go_interest hprep
      split at h
      · -- Ok n
        split at h
        · -- full write: loop
          have hrec := ih _ _ _ _ _ h hmem
          refine ⟨?_, hrec.2.1, hrec.2.2.1, hrec.2.2.2⟩
          have : ({ c1 with out_buffer := [], out_buffer_pos := 0 } :
              FrontendConnection).send_interest = c1.send_interest := rfl
          rw [this] at hrec
          rw [← hint]
          exact hrec.1
        · -- partial write
          split at h
          · injection h with h1 h2 h3
            rw [← h3] at hmem
            exact absurd hmem (by decide)
          · injection h with h1 h2 h3
            rw [← h3] at hmem
            exact absurd hmem (by decide)
      · -- WouldBlock
        split at h
        · injection h with h1 h2 h3
          rw [← h3] at hmem
          exact absurd hmem (by decide)
        · injection h with h1 h2 h3
          rw [← h3] at hmem
          exact absurd hmem (by decide)
      · -- Interrupted
        have hrec := ih _ _ _ _ _ h hmem
        refine ⟨?_, hrec.2.1, hrec.2.2.1, hrec.2.2.2⟩
        rw [← hint]
        exact hrec.1
      · -- fatal
        injection h with h1 h2 h3
        rw [← h3] at hmem
        exact absurd hmem (by decide)

theorem backend_send_rereg_unconditional (script : List WriteRes)
    (b : BackendConnection) (hbuf : b.out_buffer = [])
    (hq : b.message_queue = []) :
    (BackendConnection.send b script).2.2.1 = [RegAction.regReadable] := by
  have hprep : BackendConnection.sendPrep b = (b, [RegAction.regReadable], false) := by
    unfold BackendConnection.sendPrep
    rw [if_pos hbuf, hq]
  cases script with
  | nil =>
    rw [BackendConnection.send, hprep]
  | cons r rest =>
    rw [BackendConnection.send, hprep]
    rfl

/-- C7, amended.  The frontend `send()` re-registers with read-only
interest only upon finding the outbound buffer and message queue empty with
`send_interest` armed, and it clears the flag; with the flag unarmed, no
read-only re-registration ever happens.  The backend `send()`, by contrast,
performs the read-only re-registration unconditionally whenever buffer and
queue are empty — it has no write-interest flag at all. -/
theorem claim_C7_write_interest (script : List WriteRes) :
    (∀ (c : FrontendConnection) (close : Bool) (c2 : FrontendConnection)
        (regs : List RegAction) (rest : List WriteRes),
      FrontendConnection.send c script = .res close c2 regs rest →
      RegAction.regReadable ∈ regs →
      c.send_interest = true ∧ c2.send_interest = false ∧
      c2.message_queue = [] ∧ c2.out_buffer = []) ∧
    (∀ (c : FrontendConnection) (close : Bool) (c2 : FrontendConnection)
        (regs : List RegAction) (rest : List WriteRes),
      c.send_interest = false →
      FrontendConnection.send c script = .res close c2 regs rest →
      RegAction.regReadable ∉ regs) ∧
    (∀ b : BackendConnection, b.out_buffer = [] → b.message_queue = [] →
      (BackendConnection.send b script).2.2.1 = [RegAction.regReadable]) := by
  refine ⟨fun c close c2 regs rest => fsend_readable_spec script c close c2 regs rest,
    ?_, backend_send_rereg_unconditional script⟩
  intro c close c2 regs rest hflag h hmem
  have hspec := fsend_readable_spec script c close c2 regs rest h hmem
  rw [hspec.1] at hflag
  exact absurd hflag (by decide)

/-- Witness for `claim_C7_write_interest`: the armed-disarm case, the
never-armed case, and the backend's unconditional re-registration. -/
theorem claim_C7_write_interest_witness :
    ((⟨[], [], 0, true⟩ : FrontendConnection).send_interest = true ∧
     (⟨[], [], 0, false⟩ : FrontendConnection).send_interest = false ∧
     ([] : List (List Nat × Nat)) = [] ∧ ([] : List Nat) = []) ∧
    RegAction.regReadable ∉ ([RegAction.regReadWrite] : List RegAction) ∧
    (BackendConnection.send ⟨[], [], 0⟩ []).2.2.1 = [RegAction.regReadable] := by
  have h := claim_C7_write_interest []
  refine ⟨?_, ?_, ?_⟩
  · exact h.1 ⟨[], [], 0, true⟩ false ⟨[], [], 0, false⟩ [RegAction.regReadable] []
      rfl (by decide)
  · exact h.2.1 ⟨[], [5], 0, false⟩ false ⟨[], [5], 0, true⟩ [RegAction.regReadWrite] []
      rfl rfl
  · exact h.2.2 ⟨[], [], 0⟩ rfl rfl

/-- C7, counterexample.  On a fresh backend connection — empty buffer,
empty queue, write interest never armed (this `Connection` has no armed
flag and has never re-registered) — `send()` nonetheless performs a
read-only re-registration, contradicting the claim that it only happens
when the flag is armed. -/
theorem claim_C7_counterexample :
    (BackendConnection.send ⟨[], [], 0⟩ []).2.2.1 = [RegAction.regReadable] ∧
    (BackendConnection.send ⟨[], [], 0⟩ []).1 = false := ⟨rfl, rfl⟩

/-- C10.  `send_message` appends the frame and flushes opportunistically but
discards `send()`'s close verdict, so a drain that delivers via
`send_message` never removes a connection from the worker's map — its
tokens are preserved even if every socket write fails fatally; only a later
poller event, whose handler does consult the verdict of `send()` (or
`read()`), removes the connection. -/
theorem claim_C10_send_verdict_discarded (message : List Nat)
    (conns : List (Nat × BackendConnection × List WriteRes))
    (tok : Nat) (c : BackendConnection) (script : List WriteRes)
    (hclose : (BackendConnection.send c script).1 = true) :
    (drainGlobalBackend message conns).map (fun t => t.1) =
      conns.map (fun t => t.1) ∧
    connectionWritableEvent tok [(tok, c, script)] = [] := by
  constructor
  · rw [drainGlobalBackend, List.map_map]
    rfl
  · simp [connectionWritableEvent, hclose]

/-- Witness for `claim_C10_send_verdict_discarded`: a connection whose
socket write fails fatally mid-frame. -/
theorem claim_C10_send_verdict_discarded_witness :
    (drainGlobalBackend [104] [(5, ⟨[], [100], 0⟩, [WriteRes.fatal])]).map
        (fun t => t.1) =
      ([(5, (⟨[], [100], 0⟩ : BackendConnection), [WriteRes.fatal])]).map
        (fun t => t.1) ∧
    connectionWritableEvent 7 [(7, ⟨[], [100], 0⟩, [WriteRes.fatal])] = [] :=
  claim_C10_send_verdict_discarded [104]
    [(5, ⟨[], [100], 0⟩, [WriteRes.fatal])] 7 ⟨[], [100], 0⟩ [WriteRes.fatal] rfl

end RustChat
